import Mathlib

/-!
Verification of the unidoc PDF appender (incremental-update engine).

The Go source manipulates an in-memory object graph of `core.PdfObject`
values (dictionaries, arrays, streams, indirect objects, references and
primitives) through pointers; pointer identity is what the session's
bookkeeping maps (`srcIndirectObjects`, `hasNewObject`,
`objectToObjectCopyMap`) are keyed by.  We embed this graph as an arena
(`Heap`, a list of `Node`s) where an object's identity is its index
(`ObjId`); in-place mutation of a Go object becomes an index update of the
arena.  Go `map` values become association lists; Go map iteration order is
nondeterministic, so every theorem below either does not depend on the
iteration order or is evaluated on maps with at most one entry.

Functions translated from the repository sources (`PdfAppender` and its
methods) keep their Go names.  Collaborator code that is not part of the
sources (the parser/reader, `core.GetDict`-style accessors, stream codecs,
`copyObject`, `PdfPage`) is modelled from the specification; each such
definition carries a doc comment starting with `Modelled from the spec:`.
-/

namespace UniPdf

/-- Identity of an in-memory object: its index in the arena. -/
abbrev ObjId := Nat

/-- Tagged variants of `core.PdfObject`.  `indirect` is
`core.PdfIndirectObject` (object number plus owned payload), `ref` is
`core.PdfObjectReference` (a non-owning object-number key), `stream` is
`core.PdfObjectStream` (object number, pointer to its dictionary, raw
bytes), `streams` is `core.PdfObjectStreams`.  Remaining primitives are
collapsed into `int`, `name` and `null`; no claim depends on the others. -/
inductive Node where
  | null
  | int (n : Int)
  | name (s : String)
  | ref (num : Int)
  | indirect (num : Int) (payload : ObjId)
  | array (elems : List ObjId)
  | dict (entries : List (String × ObjId))
  | stream (num : Int) (dictId : ObjId) (data : List Char)
  | streams (elems : List ObjId)
deriving DecidableEq, Repr

/-- The arena of objects; a Go pointer is an index into it. -/
abbrev Heap := List Node

/-- Association-list lookup (first match), modelling Go map indexing. -/
def aget {α β : Type} [DecidableEq α] (es : List (α × β)) (k : α) : Option β :=
  match es with
  | [] => none
  | (k', v) :: rest => if k = k' then some v else aget rest k

/-- Association-list update: overwrite in place if the key is present,
append otherwise.  `PdfObjectDictionary.Set` keeps the key order stable on
overwrite and appends new keys, which this mirrors. -/
def aset {α β : Type} [DecidableEq α] (es : List (α × β)) (k : α) (v : β) :
    List (α × β) :=
  match es with
  | [] => [(k, v)]
  | (k', v') :: rest => if k = k' then (k, v) :: rest else (k', v') :: aset rest k v

/-- Association-list removal, modelling `PdfObjectDictionary.Remove`. -/
def aremove {α β : Type} [DecidableEq α] (es : List (α × β)) (k : α) :
    List (α × β) :=
  match es with
  | [] => []
  | (k', v') :: rest => if k = k' then aremove rest k else (k', v') :: aremove rest k

/-- Dictionary merge: `d.Merge(other)` sets every key of `other` into `d`
in `other`'s key order. -/
def amerge (dst src : List (String × ObjId)) : List (String × ObjId) :=
  src.foldl (fun d kv => aset d kv.1 kv.2) dst

/-- Dereference an arena index; out-of-range indices behave like the Go
`nil` object. -/
def hget (h : Heap) (i : ObjId) : Node :=
  h.getD i .null

/-- Allocate a fresh object, returning the new arena and its identity. -/
def halloc (h : Heap) (n : Node) : Heap × ObjId :=
  (h ++ [n], h.length)

/-- Entries of the object at `i` when it is a dictionary, `[]` otherwise. -/
def dictEntries (h : Heap) (i : ObjId) : List (String × ObjId) :=
  match hget h i with
  | .dict es => es
  | _ => []

/-- Elements of the object at `i` when it is an array, `[]` otherwise. -/
def arrElems (h : Heap) (i : ObjId) : List ObjId :=
  match hget h i with
  | .array es => es
  | _ => []

/-- In-place `dict.Set(k, v)` on the object at `i`; a no-op unless the
object is a dictionary (in Go the receiver is statically a dictionary). -/
def hsetDict (h : Heap) (i : ObjId) (k : String) (v : ObjId) : Heap :=
  match hget h i with
  | .dict es => h.set i (.dict (aset es k v))
  | _ => h

/-- In-place `dict.Remove(k)` on the object at `i`. -/
def hremoveDict (h : Heap) (i : ObjId) (k : String) : Heap :=
  match hget h i with
  | .dict es => h.set i (.dict (aremove es k))
  | _ => h

/-- In-place `dict.Merge(src)` on the object at `i`. -/
def hmergeDict (h : Heap) (i : ObjId) (src : List (String × ObjId)) : Heap :=
  match hget h i with
  | .dict es => h.set i (.dict (amerge es src))
  | _ => h

/-- In-place `array.Append(vs...)` on the object at `i`. -/
def harrAppend (h : Heap) (i : ObjId) (vs : List ObjId) : Heap :=
  match hget h i with
  | .array es => h.set i (.array (es ++ vs))
  | _ => h

/-- In-place `array.Set(n, v)` on the object at `i`; out-of-range indices
are ignored. -/
def harrSet (h : Heap) (i : ObjId) (n : Nat) (v : ObjId) : Heap :=
  match hget h i with
  | .array es => h.set i (.array (es.set n v))
  | _ => h

/-- In-place replacement of a stream's payload bytes (`stream.Stream = b`). -/
def hstreamSetData (h : Heap) (i : ObjId) (data : List Char) : Heap :=
  match hget h i with
  | .stream num d _ => h.set i (.stream num d data)
  | _ => h

/-- Modelled from the spec: the object model's ownership unwrapping
(`core.TraceToDirectObject`) peels indirect-object wrappers; references are
non-owning keys and are not followed.  Fuel bounds the unwrap chain. -/
def direct (h : Heap) : Nat → ObjId → ObjId
  | 0, i => i
  | fuel + 1, i =>
    match hget h i with
    | .indirect _ p => direct h fuel p
    | _ => i

/-- Modelled from the spec: `core.GetDict` checks that a (possibly
indirect) value is a dictionary, returning the dictionary object itself;
the `none` result is the Go `ok = false` / `NotADictionary` outcome. -/
def getDictM (h : Heap) (oi : Option ObjId) : Option ObjId :=
  match oi with
  | none => none
  | some i =>
    let j := direct h h.length i
    match hget h j with
    | .dict _ => some j
    | _ => none

/-- Modelled from the spec: `core.GetArray`, the `NotAnArray` guard. -/
def getArrayM (h : Heap) (oi : Option ObjId) : Option ObjId :=
  match oi with
  | none => none
  | some i =>
    let j := direct h h.length i
    match hget h j with
    | .array _ => some j
    | _ => none

/-- Modelled from the spec: `core.GetStream`, the `NotAStream` guard. -/
def getStreamM (h : Heap) (oi : Option ObjId) : Option ObjId :=
  match oi with
  | none => none
  | some i =>
    let j := direct h h.length i
    match hget h j with
    | .stream _ _ _ => some j
    | _ => none

/-- Modelled from the spec: the Source Loader's `LookupByNumber`, the
memoized resolver from an object number to the indirect object (or stream)
carrying that number. -/
def lookupByNumber (h : Heap) (n : Int) : Option ObjId :=
  (List.range h.length).find? fun i =>
    match hget h i with
    | .indirect m _ => decide (m = n)
    | .stream m _ _ => decide (m = n)
    | _ => false

/-- Translation of `traceObject` (appender source): resolve a reference
through the parser, pass every other object through; a failed lookup is
the parser error. -/
def traceObject (h : Heap) (oi : Option ObjId) : Except String (Option ObjId) :=
  match oi with
  | none => .ok none
  | some i =>
    match hget h i with
    | .ref n =>
      match lookupByNumber h n with
      | some j => .ok (some j)
      | none => .error "lookup by reference failed"
    | _ => .ok (some i)

/-- Page bounding box (`PdfRectangle`).  The Go fields are `float64`; the
merge algorithm only compares and copies coordinates, never computes with
them, so exact integers model them faithfully (NaN inputs aside). -/
structure Rect where
  llx : Int
  lly : Int
  urx : Int
  ury : Int
deriving DecidableEq, Repr

/-- Session state of `PdfAppender` (latest source version).  Go maps keyed
by `core.PdfObject` interface values compare by pointer identity, which the
`ObjId` keys reproduce.  `pagesId` and `kidsId` are optional because the
constructor silently skips the page-tree block when the Pages payload is
not a dictionary; a later nil dereference is modelled as an error. -/
structure Appender where
  heap : Heap
  srcResources : List String
  srcIndirectObjects : List ObjId
  newObjects : List ObjId
  hasNewObject : List ObjId
  pagesDict : List (Nat × ObjId)
  newPagesDict : List (Nat × ObjId)
  rootId : ObjId
  catalogId : ObjId
  ppagesId : ObjId
  pagesId : Option ObjId
  kidsId : Option ObjId
  defaultMediaBox : Option Rect
  resourcesRenameMap : List (String × String)
  objectToObjectCopyMap : List (ObjId × ObjId)
  greatestObjNum : Int
deriving DecidableEq, Repr

/-- Translation of `PdfAppender.addNewObjects`, written as a worklist so
that the recursion is structural in the fuel (the Go version recurses over
the graph directly; the worklist visits the same objects in the same
depth-first order).  An object already queued, or belonging to the source
document's object set, is skipped; indirect objects and streams are queued
and marked before their payloads are visited. -/
def addNewObjectsList : Nat → Appender → List ObjId → Appender
  | 0, st, _ => st
  | _ + 1, st, [] => st
  | fuel + 1, st, i :: rest =>
    if i ∈ st.hasNewObject then addNewObjectsList fuel st rest
    else if i ∈ st.srcIndirectObjects then addNewObjectsList fuel st rest
    else
      match hget st.heap i with
      | .indirect _ p =>
        addNewObjectsList fuel
          { st with newObjects := st.newObjects ++ [i], hasNewObject := i :: st.hasNewObject }
          (p :: rest)
      | .array es => addNewObjectsList fuel st (es ++ rest)
      | .dict es => addNewObjectsList fuel st (es.map Prod.snd ++ rest)
      | .streams es => addNewObjectsList fuel st (es ++ rest)
      | .stream _ d _ =>
        addNewObjectsList fuel
          { st with newObjects := st.newObjects ++ [i], hasNewObject := i :: st.hasNewObject }
          (d :: rest)
      | _ => addNewObjectsList fuel st rest

/-- Translation of `PdfAppender.lookupIndirectObjects` as a worklist over
the same depth-first order: records indirect objects and streams reachable
from the root through in-memory links; unlike `addNewObjects` it does not
descend into a stream's dictionary, and references are never followed. -/
def lookupIndirectObjectsList : Nat → Heap → List ObjId → List ObjId → List ObjId
  | 0, _, acc, _ => acc
  | _ + 1, _, acc, [] => acc
  | fuel + 1, h, acc, i :: rest =>
    if i ∈ acc then lookupIndirectObjectsList fuel h acc rest
    else
      match hget h i with
      | .indirect _ p => lookupIndirectObjectsList fuel h (acc ++ [i]) (p :: rest)
      | .array es => lookupIndirectObjectsList fuel h acc (es ++ rest)
      | .dict es => lookupIndirectObjectsList fuel h acc (es.map Prod.snd ++ rest)
      | .streams es => lookupIndirectObjectsList fuel h acc (es ++ rest)
      | .stream _ _ _ => lookupIndirectObjectsList fuel h (acc ++ [i]) rest
      | _ => lookupIndirectObjectsList fuel h acc rest

/-- Translation of `PdfAppender.getNewName`: starting at suffix 1, return
the first `nm ++ i` absent from the session's source resource-name set.
The Go loop is unbounded (with an unreachable panic after it); the model
bounds it by `|src| + 1` candidates, enough whenever a free candidate
exists among them, and `none` stands for the panic. -/
def getNewNameAux (src : List String) (nm : String) : Nat → Nat → Option String
  | 0, _ => none
  | fuel + 1, i =>
    if nm ++ Nat.repr i ∈ src then getNewNameAux src nm fuel (i + 1)
    else some (nm ++ Nat.repr i)

/-- Entry point of the minting loop, with the fuel used by the model. -/
def getNewName (src : List String) (nm : String) : Option String :=
  getNewNameAux src nm (src.length + 1) 1

/-- Modelled from the spec: `traceObject` is called with a nil parser from
`renameResources`; with no parser available references pass through
unresolved. -/
def traceObjOpt (h : Heap) (withParser : Bool) (oi : Option ObjId) :
    Except String (Option ObjId) :=
  if withParser then traceObject h oi else .ok oi

/-- One category of `getPageResourcesByName`: every key of the category
dictionary is recorded as mapping to that dictionary's identity. -/
def resourceKeysInto (h : Heap) (dictId : ObjId) (dest : List (String × ObjId)) :
    List (String × ObjId) :=
  (dictEntries h dictId).foldl (fun d kv => aset d kv.1 dictId) dest

/-- Resolution of one resource category (`getDict(traceObject(parser,
resources.Get(cat)))`); a trace failure and a non-dictionary collapse to
`none`, matching how the callers use the partially filled table. -/
def categoryDict (h : Heap) (withParser : Bool) (resId : ObjId) (cat : String) :
    Option ObjId :=
  match traceObjOpt h withParser (aget (dictEntries h resId) cat) with
  | .error _ => none
  | .ok oi => getDictM h oi

/-- Translation of `getPageResourcesByName`.  The Go function aborts with
an error as soon as one category (checked in the order ExtGState, XObject,
Font) is missing or malformed, leaving the destination map partially
filled; both callers ignore the error, so the model returns that partial
table directly. -/
def getPageResourcesByName (h : Heap) (withParser : Bool) (pageId : ObjId) :
    List (String × ObjId) :=
  match traceObjOpt h withParser (aget (dictEntries h pageId) "Resources") with
  | .error _ => []
  | .ok resOpt =>
    match getDictM h resOpt with
    | none => []
    | some resId =>
      match categoryDict h withParser resId "ExtGState" with
      | none => []
      | some eg =>
        let dest := resourceKeysInto h eg []
        match categoryDict h withParser resId "XObject" with
        | none => dest
        | some xo =>
          let dest := resourceKeysInto h xo dest
          match categoryDict h withParser resId "Font" with
          | none => dest
          | some f => resourceKeysInto h f dest

/-- Model of Go `strings.Replace(s, pat, rep, -1)`: replace every
occurrence of `pat`, scanning left to right without rescanning the
replacement text.  Each step consumes at least one character, so the input
length is sufficient fuel. -/
def replaceAllAux (pat rep : List Char) : Nat → List Char → List Char
  | 0, s => s
  | fuel + 1, s =>
    match s with
    | [] => []
    | c :: cs =>
      if !pat.isEmpty && pat.isPrefixOf (c :: cs) then
        rep ++ replaceAllAux pat rep fuel ((c :: cs).drop pat.length)
      else
        c :: replaceAllAux pat rep fuel cs

/-- Entry point of the substring replacement. -/
def replaceAll (s pat rep : List Char) : List Char :=
  replaceAllAux pat rep s.length s

/-- Translation of the content-stream rewrite loop of `renameResources`:
fold plain substring replacement over the substitution map (the Go map
iteration order is nondeterministic; every use below has at most one
entry). -/
def rewriteContent (renames : List (String × String)) (data : List Char) : List Char :=
  renames.foldl (fun d kv => replaceAll d kv.1.data kv.2.data) data

/-- One iteration of the first loop of `renameResources`. -/
def renamePhase1Step (acc : Appender × List (String × String) × Option String)
    (kv : String × ObjId) : Appender × List (String × String) × Option String :=
  match acc with
  | (st1, smap, some e) => (st1, smap, some e)
  | (st1, smap, none) =>
    if kv.1 ∈ st1.srcResources then
      match getNewName st1.srcResources kv.1 with
      | none => (st1, smap, some "getNewName exhausted the model fuel")
      | some nn =>
        ({ st1 with resourcesRenameMap := aset st1.resourcesRenameMap kv.1 nn },
          aset smap ("/" ++ kv.1) ("/" ++ nn), none)
    else (st1, smap, none)

/-- First loop of `renameResources`: for every page resource name that
collides with the session's source resource-name set, mint a replacement
via `getNewName`, record it in the session rename map, and record the
slash-prefixed token pair for the stream rewrite.  A `getNewName` failure
models the unreachable Go panic and aborts the operation. -/
def renamePhase1 (st : Appender) (names : List (String × ObjId)) :
    Appender × List (String × String) × Option String :=
  names.foldl renamePhase1Step (st, [], none)

/-- One iteration of the second loop of `renameResources`. -/
def renamePhase2Step (fuel : Nat) (st1 : Appender) (kv : String × ObjId) :
    Appender :=
  match aget st1.resourcesRenameMap kv.1 with
  | none => st1
  | some nn =>
    match aget (dictEntries st1.heap kv.2) kv.1 with
    | none => st1
    | some obj =>
      let h := hsetDict st1.heap kv.2 nn obj
      let h2 := hremoveDict h kv.2 kv.1
      addNewObjectsList fuel { st1 with heap := h2 } [obj]

/-- Second loop of `renameResources`: re-key each renamed entry inside its
category dictionary (set the new key, drop the old one) and queue the moved
object.  The inner `none` branch is unreachable — the names were drawn from
these dictionaries' own keys — where Go would store a nil-valued entry. -/
def renamePhase2 (fuel : Nat) (st : Appender) (names : List (String × ObjId)) :
    Appender :=
  names.foldl (renamePhase2Step fuel) st

/-- One iteration of the third loop of `renameResources`. -/
def renamePhase3Step (smap : List (String × String)) (st1 : Appender)
    (obj : ObjId) : Appender :=
  match getStreamM st1.heap (some obj) with
  | none => st1
  | some sid =>
    match hget st1.heap sid with
    | .stream _ dictId data =>
      let data' := rewriteContent smap data
      let h := hstreamSetData st1.heap sid data'
      let al := halloc h (.int data'.length)
      { st1 with heap := hsetDict al.1 dictId "Length" al.2 }
    | _ => st1

/-- Third loop of `renameResources`: rewrite each content stream through
the substitution map and refresh its Length entry.  The stream codec
(`NewEncoderFromStream` / `DecodeStream` / `EncodeBytes`) is collaborator
code modelled from the spec as the identity (raw) codec, which never
fails. -/
def renamePhase3 (st : Appender) (smap : List (String × String))
    (elems : List ObjId) : Appender :=
  elems.foldl (renamePhase3Step smap) st

/-- Translation of `PdfAppender.renameResources`: a page whose Contents is
absent or not an array returns immediately with no error and no state
change; otherwise the three loops above run in order.  The second
component is the Go error (every caller in the source discards it). -/
def renameResources (fuel : Nat) (st : Appender) (pageId : ObjId) :
    Appender × Option String :=
  match getArrayM st.heap (aget (dictEntries st.heap pageId) "Contents") with
  | none => (st, none)
  | some contentsId =>
    let pageResources := getPageResourcesByName st.heap false pageId
    match renamePhase1 st pageResources with
    | (st1, _, some e) => (st1, some e)
    | (st1, smap, none) =>
      let st2 := renamePhase2 fuel st1 pageResources
      let st3 := renamePhase3 st2 smap (arrElems st2.heap contentsId)
      (st3, none)

/-- Children of a node along the in-memory edges the tracker walks:
indirect payloads, array elements, dictionary values, stream dictionaries
and object-stream elements; references are non-owning keys with no
children. -/
def nodeChildren : Node → List ObjId
  | .indirect _ p => [p]
  | .array es => es
  | .dict es => es.map Prod.snd
  | .stream _ d _ => [d]
  | .streams es => es
  | _ => []

/-- Worklist closure of `nodeChildren`, in first-visit order. -/
def reachList : Nat → Heap → List ObjId → List ObjId → List ObjId
  | 0, _, acc, _ => acc
  | _ + 1, _, acc, [] => acc
  | fuel + 1, h, acc, i :: rest =>
    if i ∈ acc then reachList fuel h acc rest
    else reachList fuel h (acc ++ [i]) (nodeChildren (hget h i) ++ rest)

/-- Objects reachable from `i` through in-memory links. -/
def reachFrom (fuel : Nat) (h : Heap) (i : ObjId) : List ObjId :=
  reachList fuel h [] [i]

/-- Nodes that carry their own file identity (what the new-object tracker
queues and the source-object set records). -/
def isTrackable : Node → Bool
  | .indirect _ _ => true
  | .stream _ _ _ => true
  | _ => false

/-- Visit phase of the memoized deep copy: collect, in first-visit order,
every object reachable from the roots that does not already have a copy
recorded in the memo table. -/
def collectCopy : Nat → Heap → List (ObjId × ObjId) → List ObjId → List ObjId →
    Option (List ObjId)
  | 0, _, _, _, _ => none
  | _ + 1, _, _, acc, [] => some acc
  | fuel + 1, h, memo, acc, i :: rest =>
    if (aget memo i).isSome || i ∈ acc then collectCopy fuel h memo acc rest
    else collectCopy fuel h memo (acc ++ [i]) (nodeChildren (hget h i) ++ rest)

/-- Redirect a node's outgoing links through the copy table. -/
def remapNode (f : ObjId → ObjId) : Node → Node
  | .indirect num p => .indirect num (f p)
  | .array es => .array (es.map f)
  | .dict es => .dict (es.map fun kv => (kv.1, f kv.2))
  | .stream num d data => .stream num (f d) data
  | .streams es => .streams (es.map f)
  | n => n

/-- Modelled from the spec: the memoized deep copy behind `copyObject` and
`PdfPage.Duplicate` (design note on late binding and deep-copying page
graphs).  Objects already in the memo table keep their recorded copies;
every other reachable object gets a fresh identity and its links are
redirected to the copies, so shared subobjects stay shared and cycles are
closed.  Fuel exhaustion (never reached on the concrete inputs below)
yields `none`. -/
def copyGraph (fuel : Nat) (h : Heap) (memo : List (ObjId × ObjId)) (i : ObjId) :
    Option (Heap × List (ObjId × ObjId) × ObjId) :=
  match collectCopy fuel h memo [] [i] with
  | none => none
  | some fresh =>
    let base := h.length
    let memo' := memo ++ ((List.range fresh.length).zip fresh).map fun p => (p.2, base + p.1)
    let f := fun j => (aget memo' j).getD j
    let newNodes := fresh.map fun r => remapNode f (hget h r)
    some (h ++ newNodes, memo', f i)

/-- Modelled from the spec: the page-model collaborator.  A page exposes a
content-stream value, optional Font / ExtGState / XObject resource
dictionaries, an optional bounding box and the backing page dictionary. -/
structure Page where
  contents : ObjId
  font : Option ObjId
  extGState : Option ObjId
  xObject : Option ObjId
  mediaBox : Option Rect
  pageDict : ObjId
deriving DecidableEq, Repr

/-- Copy one optional page field through the running memo table. -/
def copyField (fuel : Nat) (h : Heap) (memo : List (ObjId × ObjId))
    (oi : Option ObjId) : Option (Heap × List (ObjId × ObjId) × Option ObjId) :=
  match oi with
  | none => some (h, memo, none)
  | some i =>
    match copyGraph fuel h memo i with
    | none => none
    | some (h', m', i') => some (h', m', some i')

/-- Modelled from the spec: `PdfPage.Duplicate` deep-copies the page so the
appender never aliases or mutates the caller's page.  The dictionary graph
is copied first and the model fields are copied through the same memo
table, so fields pointing into the dictionary graph keep pointing into the
copy. -/
def duplicatePage (fuel : Nat) (h : Heap) (p : Page) : Option (Heap × Page) :=
  match copyGraph fuel h [] p.pageDict with
  | none => none
  | some (h1, m1, pd) =>
    match copyGraph fuel h1 m1 p.contents with
    | none => none
    | some (h2, m2, c) =>
      match copyField fuel h2 m2 p.font with
      | none => none
      | some (h3, m3, f) =>
        match copyField fuel h3 m3 p.extGState with
        | none => none
        | some (h4, m4, eg) =>
          match copyField fuel h4 m4 p.xObject with
          | none => none
          | some (h5, _, xo) =>
            some (h5, { contents := c, font := f, extGState := eg, xObject := xo,
                        mediaBox := p.mediaBox, pageDict := pd })

/-- Reuse the page dictionary's Resources dictionary when the entry
already holds one directly, allocate a fresh one otherwise. -/
def ensureResourcesDict (h : Heap) (pd : ObjId) : Heap × ObjId :=
  match aget (dictEntries h pd) "Resources" with
  | some r =>
    match hget h r with
    | .dict _ => (h, r)
    | _ => halloc h (.dict [])
  | none => halloc h (.dict [])

/-- Write one resource-category entry when the page model carries it. -/
def setCategory (h : Heap) (resId : ObjId) (cat : String) (v : Option ObjId) :
    Heap :=
  match v with
  | some x => hsetDict h resId cat x
  | none => h

/-- Modelled from the spec: `PdfPage.ToPdfObject` synchronizes the page's
dictionary with the page model — the Contents entry and, when any resource
category is present, the Resources dictionary (reused when the entry
already holds one, allocated otherwise) with its category entries. -/
def toPdfObject (h : Heap) (p : Page) : Heap :=
  let h1 := hsetDict h p.pageDict "Contents" p.contents
  if p.font = none ∧ p.extGState = none ∧ p.xObject = none then h1
  else
    let er := ensureResourcesDict h1 p.pageDict
    let h2 := hsetDict er.1 p.pageDict "Resources" er.2
    let h3 := setCategory h2 er.2 "Font" p.font
    let h4 := setCategory h3 er.2 "ExtGState" p.extGState
    setCategory h4 er.2 "XObject" p.xObject

/-- Translation of `PdfAppender.copyPage`: synchronize the page dictionary,
shallow-copy its top-level container values into fresh objects, deep-copy
the assembled dictionary through the session's `objectToObjectCopyMap`
(the missing `copyObject` helper is the spec-modelled memoized deep copy),
and wrap the result in a fresh indirect object. -/
def copyPageShallowStep (acc : Heap × List (String × ObjId))
    (kv : String × ObjId) : Heap × List (String × ObjId) :=
  match hget acc.1 kv.2 with
  | .array xs =>
    let al := halloc acc.1 (.array xs)
    (al.1, acc.2 ++ [(kv.1, al.2)])
  | .dict ds =>
    let al := halloc acc.1 (.dict (amerge [] ds))
    (al.1, acc.2 ++ [(kv.1, al.2)])
  | .streams xs =>
    let al := halloc acc.1 (.streams xs)
    (al.1, acc.2 ++ [(kv.1, al.2)])
  | _ => (acc.1, acc.2 ++ [kv])

def copyPage (fuel : Nat) (st : Appender) (p : Page) :
    Option (Appender × ObjId × ObjId) :=
  let h := toPdfObject st.heap p
  let sh := (dictEntries h p.pageDict).foldl copyPageShallowStep (h, [])
  let al0 := halloc sh.1 (.dict sh.2)
  match copyGraph fuel al0.1 st.objectToObjectCopyMap al0.2 with
  | none => none
  | some (h2, memo2, cpd) =>
    let al1 := halloc h2 (.indirect 0 cpd)
    some ({ st with heap := al1.1, objectToObjectCopyMap := memo2 }, al1.2, cpd)

/-- Translation of the MediaBox-union block of `MergePageWith` (the four
edge comparisons): an edge moves only outward, and the flag records whether
any edge moved. -/
def expandMediaBox (mb : Rect) (inc : Option Rect) : Rect × Bool :=
  match inc with
  | none => (mb, false)
  | some p =>
    let s1 := if mb.llx > p.llx then ({ mb with llx := p.llx }, true) else (mb, false)
    let s2 := if s1.1.lly > p.lly then ({ s1.1 with lly := p.lly }, true) else s1
    let s3 := if s2.1.urx < p.urx then ({ s2.1 with urx := p.urx }, true) else s2
    if s3.1.ury < p.ury then ({ s3.1 with ury := p.ury }, true) else s3

/-- Modelled from the spec: `NewPdfRectangle` reads the four numeric edges
(lower-left x and y, upper-right x and y) of a bounding-box array, failing
on any other shape. -/
def parseRect (h : Heap) (arrId : ObjId) : Option Rect :=
  match (arrElems h arrId).map (fun i => hget h (direct h h.length i)) with
  | [.int a, .int b, .int c, .int d] => some ⟨a, b, c, d⟩
  | _ => none

/-- Modelled from the spec: `PdfRectangle.ToPdfObject` serializes the four
edges as a fresh numeric array. -/
def allocRect (h : Heap) (r : Rect) : Heap × ObjId :=
  let a := halloc h (.int r.llx)
  let b := halloc a.1 (.int r.lly)
  let c := halloc b.1 (.int r.urx)
  let d := halloc c.1 (.int r.ury)
  halloc d.1 (.array [a.2, b.2, c.2, d.2])

/-- Translation of the Font branch of `MergePageWith`: when the incoming
page carries a Font dictionary, the target's (possibly indirect) Font
resource is resolved, the incoming entries are merged into it, and the
Resources entries are rewired; a missing or malformed target Font resource
is an error in this branch. -/
def mergeFontStep (st : Appender) (pf : Option ObjId)
    (resDictId resIndId newPageD : ObjId) : Appender × Option String :=
  match pf with
  | none => (st, none)
  | some pfv =>
    match traceObject st.heap (aget (dictEntries st.heap resDictId) "Font") with
    | .error e => (st, some e)
    | .ok fontOpt =>
      match getDictM st.heap fontOpt, fontOpt with
      | some fontDictId, some fontObjId =>
        match getDictM st.heap (some pfv) with
        | none => (st, some "get Font dictionary from the page failed")
        | some pfd =>
          let h := hmergeDict st.heap fontDictId (dictEntries st.heap pfd)
          let h2 := hsetDict h resDictId "Font" fontObjId
          let h3 := hsetDict h2 newPageD "Resources" resIndId
          ({ st with heap := h3 }, none)
      | _, _ => (st, some "get Font dictionary resource failed")

/-- Translation of the ExtGState branch of `MergePageWith`; unlike the Font
branch, a target ExtGState resource that fails the dictionary check skips
the branch silently. -/
def mergeExtGStateStep (st : Appender) (pe : Option ObjId)
    (resDictId resIndId newPageD : ObjId) : Appender × Option String :=
  match pe with
  | none => (st, none)
  | some pev =>
    match traceObject st.heap (aget (dictEntries st.heap resDictId) "ExtGState") with
    | .error e => (st, some e)
    | .ok egOpt =>
      match getDictM st.heap egOpt, egOpt with
      | some egDictId, some egObjId =>
        match getDictM st.heap (some pev) with
        | none => (st, some "get ExtGState dictionary from the page failed")
        | some ped =>
          let h := hmergeDict st.heap egDictId (dictEntries st.heap ped)
          let h2 := hsetDict h resDictId "ExtGState" egObjId
          let h3 := hsetDict h2 newPageD "Resources" resIndId
          ({ st with heap := h3 }, none)
      | _, _ => (st, none)

/-- Translation of the XObject branch of `MergePageWith`; a missing target
XObject resource is replaced by a freshly allocated (and queued) empty
dictionary in a fresh indirect object. -/
def mergeXObjectStep (fuel : Nat) (st : Appender) (px : Option ObjId)
    (resDictId resIndId newPageD : ObjId) : Appender × Option String :=
  match px with
  | none => (st, none)
  | some pxv =>
    match traceObject st.heap (aget (dictEntries st.heap resDictId) "XObject") with
    | .error e => (st, some e)
    | .ok xoOpt =>
      let mk : Appender × ObjId :=
        match xoOpt with
        | some x => (st, x)
        | none =>
          let ad := halloc st.heap (.dict [])
          let ai := halloc ad.1 (.indirect 0 ad.2)
          (addNewObjectsList fuel { st with heap := ai.1 } [ai.2], ai.2)
      match getDictM mk.1.heap (some mk.2) with
      | none => (mk.1, some "get XObject dictionary resource failed")
      | some xod =>
        match getDictM mk.1.heap (some pxv) with
        | none => (mk.1, some "get XObject dictionary from the page failed")
        | some pxd =>
          let h := hmergeDict mk.1.heap xod (dictEntries mk.1.heap pxd)
          let h2 := hsetDict h resDictId "XObject" mk.2
          let h3 := hsetDict h2 newPageD "Resources" resIndId
          ({ mk.1 with heap := h3 }, none)

/-- Translation of the MediaBox block of `MergePageWith`: start from the
session default (or the zero rectangle), prefer the working page's own
MediaBox entry when present, expand it around the incoming page's box, and
store the union back only when some edge moved. -/
def mergeMediaBoxStep (st : Appender) (newPageD : ObjId) (pmb : Option Rect) :
    Appender × Option String :=
  let mb0 := st.defaultMediaBox.getD ⟨0, 0, 0, 0⟩
  let parsed : Option (Option Rect) :=
    match getArrayM st.heap (aget (dictEntries st.heap newPageD) "MediaBox") with
    | none => some none
    | some arrId =>
      match parseRect st.heap arrId with
      | none => none
      | some r => some (some r)
  match parsed with
  | none => (st, some "invalid MediaBox rectangle")
  | some ropt =>
    let mb := ropt.getD mb0
    let ex := expandMediaBox mb pmb
    if ex.2 then
      let ar := allocRect st.heap ex.1
      ({ st with heap := hsetDict ar.1 newPageD "MediaBox" ar.2 }, none)
    else (st, none)

/-- Parent-resolution step of the first-merge setup: a Parent reference is
resolved through the parser and inlined; a failed lookup is the parser
error. -/
def mergeNewPageParent (st1 : Appender) (newPageId : ObjId) :
    Except String Appender :=
  match aget (dictEntries st1.heap newPageId) "Parent" with
  | some pid =>
    match hget st1.heap pid with
    | .ref n =>
      match lookupByNumber st1.heap n with
      | none => .error "lookup of Parent failed"
      | some par => .ok { st1 with heap := hsetDict st1.heap newPageId "Parent" par }
    | _ => .ok st1
  | none => .ok st1

/-- First-merge setup of `MergePageWith`: clone the source page dictionary
into a fresh working dictionary, resolve and inline its Parent reference,
require a Contents entry on the source page, seed the working Contents
with a fresh array of the source content elements, and wrap the working
dictionary in a fresh indirect object.  (The Go code also assigns an
unused shadowed local when MediaBox is missing, which is a no-op.) -/
def mergeNewPage (st : Appender) (srcPageDict : ObjId) :
    Appender × Option ObjId × Option String :=
  let al := halloc st.heap (.dict (amerge [] (dictEntries st.heap srcPageDict)))
  let newPageId := al.2
  let st1 := { st with heap := al.1 }
  match mergeNewPageParent st1 newPageId with
  | .error e => (st1, none, some e)
  | .ok st2 =>
    match aget (dictEntries st2.heap srcPageDict) "Contents" with
    | none => (st2, none, some "page contents not found in the page")
    | some srcContentsObj =>
      let elements :=
        match hget st2.heap srcContentsObj with
        | .array es => es
        | _ => [srcContentsObj]
      let aa := halloc st2.heap (.array elements)
      let h3 := hsetDict aa.1 newPageId "Contents" aa.2
      let ai := halloc h3 (.indirect 0 newPageId)
      ({ st2 with heap := ai.1 }, some ai.2, none)

/-- Continuation of `MergePageWith` after the working page exists: wrap a
non-array incoming content value, synchronize the incoming page
dictionary, append the incoming content elements after the existing ones
and queue them, rename colliding resources (error discarded, as in Go),
resolve the working Resources (re-wrapping a source-owned resources
object), run the three category branches and the MediaBox union, then
record the working page and splice it into the kids array. -/
def mergeRest (fuel : Nat) (st : Appender) (page : Page)
    (newPageInd newPageD srcContentsId : ObjId) (pageNum : Nat) :
    Appender × Option String :=
  let wrapped : Appender × Page :=
    match hget st.heap page.contents with
    | .array _ => (st, page)
    | _ =>
      let aa := halloc st.heap (.array [page.contents])
      ({ st with heap := aa.1 }, { page with contents := aa.2 })
  let st1 := wrapped.1
  let page := wrapped.2
  let st2 := { st1 with heap := toPdfObject st1.heap page }
  let els := arrElems st2.heap page.contents
  let st3 := { st2 with heap := harrAppend st2.heap srcContentsId els }
  let st4 := els.foldl (fun s o => addNewObjectsList fuel s [o]) st3
  let st5 := (renameResources fuel st4 page.pageDict).1
  match traceObject st5.heap (aget (dictEntries st5.heap newPageD) "Resources") with
  | .error e => (st5, some e)
  | .ok resOpt =>
    let step2 : Appender × Option ObjId × Option String :=
      match resOpt with
      | some r =>
        if r ∈ st5.srcIndirectObjects then
          match hget st5.heap r with
          | .indirect _ p =>
            let ai := halloc st5.heap (.indirect 0 p)
            ({ st5 with heap := ai.1 }, some ai.2, none)
          | _ => (st5, none, some "source resources object is not an indirect object")
        else (st5, some r, none)
      | none => (st5, none, none)
    match step2 with
    | (st6, _, some e) => (st6, some e)
    | (st6, resOpt2, none) =>
      match getDictM st6.heap resOpt2, resOpt2 with
      | some resDictId, some resIndId =>
        (match mergeFontStep st6 page.font resDictId resIndId newPageD with
         | (st7, some e) => (st7, some e)
         | (st7, none) =>
           match mergeExtGStateStep st7 page.extGState resDictId resIndId newPageD with
           | (st8, some e) => (st8, some e)
           | (st8, none) =>
             match mergeXObjectStep fuel st8 page.xObject resDictId resIndId newPageD with
             | (st9, some e) => (st9, some e)
             | (st9, none) =>
               match mergeMediaBoxStep st9 newPageD page.mediaBox with
               | (st10, some e) => (st10, some e)
               | (st10, none) =>
                 let st11 := { st10 with
                   newPagesDict := aset st10.newPagesDict pageNum newPageInd }
                 let st12 := addNewObjectsList fuel st11 [newPageInd]
                 match st12.kidsId with
                 | none => (st12, some "kids array is nil")
                 | some kid =>
                   ({ st12 with heap := harrSet st12.heap kid pageNum newPageInd }, none))
      | _, _ => (st6, some "resources dictionary not found")

/-- Translation of `PdfAppender.MergePageWith`.  Partial mutations made
before an error persist in the returned state, as in Go where the receiver
has already been mutated when an error returns. -/
def mergePageWith (fuel : Nat) (st : Appender) (pageNum : Nat) (page : Page) :
    Appender × Option String :=
  match duplicatePage fuel st.heap page with
  | none => (st, some "model fuel exhausted while duplicating the page")
  | some (h0, dpage) =>
    let st0 := { st with heap := h0 }
    match aget st0.pagesDict pageNum with
    | none => (st0, some "page dictionary not found in the source document")
    | some srcPageDict =>
      let setup : Appender × Option ObjId × Option String :=
        match aget st0.newPagesDict pageNum with
        | some ind => (st0, some ind, none)
        | none => mergeNewPage st0 srcPageDict
      match setup with
      | (st1, _, some e) => (st1, some e)
      | (st1, none, none) => (st1, some "working page missing")
      | (st1, some newPageInd, none) =>
        match hget st1.heap newPageInd with
        | .indirect _ newPageD =>
          (match hget st1.heap newPageD with
           | .dict _ =>
             (match getArrayM st1.heap (aget (dictEntries st1.heap newPageD) "Contents") with
              | none => (st1, some "source page contents not found")
              | some srcContentsId =>
                mergeRest fuel st1 dpage newPageInd newPageD srcContentsId pageNum)
           | _ => (st1, some "working page payload is not a dictionary"))
        | _ => (st1, some "working page is not an indirect object")

/-- Translation of one iteration of `PdfAppender.AddPages`: copy the page,
reparent it under the source page tree, rename colliding resources (error
discarded), record the copy under the next page index, queue it, append it
to the kids array and refresh the page tree's Count entry. -/
def addPagesOne (fuel : Nat) (st : Appender) (page : Page) :
    Appender × Option String :=
  match copyPage fuel st page with
  | none => (st, some "model fuel exhausted while copying the page")
  | some (st1, pageIndirect, pageDictId) =>
    let st2 := { st1 with heap := hsetDict st1.heap pageDictId "Parent" st1.ppagesId }
    let st3 := (renameResources fuel st2 pageDictId).1
    let index := st3.pagesDict.length
    let st4 := { st3 with
      pagesDict := aset st3.pagesDict index pageDictId,
      newPagesDict := aset st3.newPagesDict index pageIndirect }
    let st5 := addNewObjectsList fuel st4 [pageIndirect]
    match st5.kidsId, st5.pagesId with
    | some kid, some pid =>
      let h := harrAppend st5.heap kid [pageIndirect]
      let ac := halloc h (.int (Int.ofNat (index + 1)))
      ({ st5 with heap := hsetDict ac.1 pid "Count" ac.2 }, none)
    | _, _ => (st5, some "page tree is nil")

/-- One iteration of the `AddPages` loop (errors stop the loop). -/
def addPagesStep (fuel : Nat) (acc : Appender × Option String) (p : Page) :
    Appender × Option String :=
  match acc.2 with
  | some _ => acc
  | none => addPagesOne fuel acc.1 p

/-- Translation of `PdfAppender.AddPages` (which returns nothing in Go);
the optional string reports only model-internal fuel exhaustion or the nil
page-tree dereference, each of which stops the loop. -/
def addPages (fuel : Nat) (st : Appender) (pages : List Page) :
    Appender × Option String :=
  pages.foldl (addPagesStep fuel) (st, none)

/-- Translation of `PdfAppender.WriteToFile` (latest source version): the
source bytes are copied to the destination first; with an empty pending
list the function returns right away, so the output equals the source;
otherwise the incremental writer's serialized section — collaborator
output, passed in as `delta` — is appended after the verbatim copy. -/
def writeToFile (delta : List Char) (st : Appender) (src : List Char) : List Char :=
  if st.newObjects.isEmpty then src else src ++ delta

/-- Translation of the early `PdfAppender.WriteFile` (first source
version): `os.Create` truncates the destination and the function returns
before writing anything when there are no pending pages or objects,
leaving the destination empty; in the non-empty case the (non-incremental)
writer output `delta` is the whole file — this version never copies the
source bytes at all. -/
def writeFileV1 (delta : List Char) (newPages newObjects : List ObjId)
    (_src : List Char) : List Char :=
  if newPages.isEmpty && newObjects.isEmpty then [] else delta

/-- Insert a name into the resource-name set, modelled as a duplicate-free
list in first-insertion order (a Go string-keyed set map). -/
def insertName (l : List String) (s : String) : List String :=
  if s ∈ l then l else l ++ [s]

/-- Modelled from the spec: the reader's per-page resource view used by the
constructor's `setResourceNames` closure — the page's Resources entry is
resolved through the loader, and a category value contributes its keys
when the (possibly indirect) value is a dictionary. -/
def pageCategoryNames (h : Heap) (pageId : ObjId) (cat : String)
    (acc : List String) : List String :=
  match traceObject h (aget (dictEntries h pageId) "Resources") with
  | .error _ => acc
  | .ok resOpt =>
    match getDictM h resOpt with
    | none => acc
    | some resId =>
      match getDictM h (aget (dictEntries h resId) cat) with
      | none => acc
      | some catId => (dictEntries h catId).foldl (fun a kv => insertName a kv.1) acc

/-- Translation of the constructor's kids loop: each kid is resolved
through the parser when it is a reference, must be an indirect object
whose payload is a dictionary, and is recorded under its index. -/
def buildPagesDict (h : Heap) : List ObjId → Nat → Except String (List (Nat × ObjId))
  | [], _ => .ok []
  | e :: rest, i =>
    let resolved : Except String ObjId :=
      match hget h e with
      | .ref n =>
        match lookupByNumber h n with
        | none => .error "page lookup failed"
        | some j => .ok j
      | _ => .ok e
    match resolved with
    | .error err => .error err
    | .ok j =>
      match hget h j with
      | .indirect _ p =>
        (match hget h p with
         | .dict _ =>
           (match buildPagesDict h rest (i + 1) with
            | .error err => .error err
            | .ok tl => .ok ((i, p) :: tl))
         | _ => .error "page dictionary not found in the source document")
      | _ => .error "page dictionary not found in the source document"

/-- Modelled from the spec: `Reader.GetObjectNums` lists every object
number present in the document; the constructor keeps the greatest. -/
def greatestObjNumOf (h : Heap) : Int :=
  h.foldl
    (fun g n =>
      match n with
      | .indirect m _ => max g m
      | .stream m _ _ => max g m
      | _ => g)
    0

/-- Page-tree half of `NewPdfAppender`: runs after the catalog's Pages
entry has been rewritten in place.  When the Pages payload is not a
dictionary the whole block is silently skipped (as in Go, leaving nil
page-tree fields); otherwise the default MediaBox, the kids array and the
per-index page dictionaries are required, then the source resource names
are collected (reader view) and the source object set is walked from the
root. -/
def newPdfAppenderPages (fuel : Nat) (h1 : Heap)
    (rootId catId ppagesId ppPayload : ObjId) : Except String Appender :=
  let base : Appender := {
    heap := h1, srcResources := [], srcIndirectObjects := [],
    newObjects := [], hasNewObject := [], pagesDict := [], newPagesDict := [],
    rootId := rootId, catalogId := catId, ppagesId := ppagesId,
    pagesId := none, kidsId := none, defaultMediaBox := none,
    resourcesRenameMap := [], objectToObjectCopyMap := [],
    greatestObjNum := greatestObjNumOf h1 }
  let withPages : Except String Appender :=
    match hget h1 ppPayload with
    | .dict pes =>
      let mbRes : Except String (Option Rect) :=
        match getArrayM h1 (aget pes "MediaBox") with
        | none => .ok none
        | some arrId =>
          match parseRect h1 arrId with
          | none => .error "invalid pages MediaBox"
          | some r => .ok (some r)
      (match mbRes with
       | .error e => .error e
       | .ok mb =>
         match aget pes "Kids" with
         | none => .error "kids not found in the source document"
         | some kidsId =>
           match hget h1 kidsId with
           | .array kes =>
             (match buildPagesDict h1 kes 0 with
              | .error e => .error e
              | .ok pd =>
                .ok { base with pagesId := some ppPayload, kidsId := some kidsId,
                                defaultMediaBox := mb, pagesDict := pd })
           | _ => .error "kids not found in the source document")
    | _ => .ok base
  match withPages with
  | .error e => .error e
  | .ok st =>
    let names := st.pagesDict.foldl
      (fun acc kv =>
        let a1 := pageCategoryNames st.heap kv.2 "XObject" acc
        let a2 := pageCategoryNames st.heap kv.2 "ExtGState" a1
        pageCategoryNames st.heap kv.2 "Font" a2)
      []
    let st1 := { st with srcResources := names }
    .ok { st1 with
      srcIndirectObjects := lookupIndirectObjectsList fuel st1.heap [] [rootId] }

/-- Translation of `NewPdfAppender` (latest source version).  The trailer's
Root must be a reference resolving to an indirect catalog dictionary, the
catalog's Pages entry must be a reference resolving to an indirect object,
and that entry is rewritten in place to point at the resolved object; a
non-indirect Root resolution is the Go type-assertion panic, modelled as
an error. -/
def newPdfAppender (fuel : Nat) (h0 : Heap) (trailerId : ObjId) :
    Except String Appender :=
  match hget h0 trailerId with
  | .dict tes =>
    (match aget tes "Root" with
     | none => .error "invalid Root"
     | some rootRef =>
       match hget h0 rootRef with
       | .ref rn =>
         (match lookupByNumber h0 rn with
          | none => .error "failed to read root element catalog"
          | some rootId =>
            match hget h0 rootId with
            | .indirect _ catId =>
              (match hget h0 catId with
               | .dict ces =>
                 (match aget ces "Pages" with
                  | none => .error "Pages in catalog should be a reference"
                  | some pagesRefId =>
                    match hget h0 pagesRefId with
                    | .ref pn =>
                      (match lookupByNumber h0 pn with
                       | none => .error "failed to read pages"
                       | some ppagesId =>
                         match hget h0 ppagesId with
                         | .indirect _ ppPayload =>
                           newPdfAppenderPages fuel
                             (hsetDict h0 catId "Pages" ppagesId)
                             rootId catId ppagesId ppPayload
                         | _ => .error "pages object invalid")
                    | _ => .error "Pages in catalog should be a reference")
               | _ => .error "missing catalog")
            | _ => .error "root catalog is not an indirect object")
       | _ => .error "invalid Root")
  | _ => .error "missing trailer"

/-! Concrete source document used to evaluate the session operations: a
one-page document (catalog object 1, page tree object 2, page object 3)
whose page resources expose the name `G`, together with the in-memory
object graphs of four incoming pages.  Node indices are identities; the
layout comments give the role of each node. -/

/-- Arena of the concrete document and the incoming pages. -/
def baseHeap : Heap := [
  .dict [("Root", 1)],                                       -- 0 trailer
  .ref 1,                                                    -- 1
  .indirect 1 3,                                             -- 2 catalog
  .dict [("Pages", 4)],                                      -- 3
  .ref 2,                                                    -- 4
  .indirect 2 6,                                             -- 5 page tree
  .dict [("Kids", 7), ("Count", 8)],                         -- 6
  .array [9],                                                -- 7 kids
  .int 1,                                                    -- 8
  .ref 3,                                                    -- 9
  .indirect 3 11,                                            -- 10 page 0
  .dict [("Contents", 12), ("Parent", 13), ("Resources", 14)], -- 11
  .array [15],                                               -- 12
  .ref 2,                                                    -- 13
  .dict [("Font", 16), ("ExtGState", 17), ("XObject", 18)],  -- 14
  .ref 4,                                                    -- 15 content element
  .dict [("G", 19)],                                         -- 16 source Font
  .dict [],                                                  -- 17
  .dict [],                                                  -- 18
  .name "X",                                                 -- 19
  .dict [("Contents", 21)],                                  -- 20 page A dict
  .array [22],                                               -- 21
  .stream 0 23 ['B', 'T'],                                   -- 22
  .dict [("Length", 24)],                                    -- 23
  .int 2,                                                    -- 24
  .dict [("FA", 26)],                                        -- 25 page A Font
  .indirect 0 27,                                            -- 26
  .dict [],                                                  -- 27
  .dict [("Contents", 29)],                                  -- 28 page B dict
  .array [30],                                               -- 29
  .stream 0 31 ['E', 'T'],                                   -- 30
  .dict [("Length", 32)],                                    -- 31
  .int 2,                                                    -- 32
  .dict [("FB", 34)],                                        -- 33 page B Font
  .indirect 0 35,                                            -- 34
  .dict [],                                                  -- 35
  .dict [("Contents", 37)],                                  -- 36 page C dict
  .array [38],                                               -- 37
  .stream 0 39 ['/', 'G', ' ', 'g', 's'],                    -- 38
  .dict [("Length", 40)],                                    -- 39
  .int 5,                                                    -- 40
  .dict [("G", 42)],                                         -- 41 page C Font
  .indirect 0 43,                                            -- 42
  .dict [],                                                  -- 43
  .dict [],                                                  -- 44 page C ExtGState
  .dict [],                                                  -- 45 page C XObject
  .dict [("Contents", 47)],                                  -- 46 page D dict
  .array [48],                                               -- 47
  .stream 0 49 ['/', 'G', ' ', 'g', 's'],                    -- 48
  .dict [("Length", 50)],                                    -- 49
  .int 5,                                                    -- 50
  .dict [("G", 52)],                                         -- 51 page D Font
  .indirect 0 53,                                            -- 52
  .dict [],                                                  -- 53
  .dict [],                                                  -- 54 page D ExtGState
  .dict []                                                   -- 55 page D XObject
]

/-- Incoming page A: fresh Font name `FA`, stream contents. -/
def pageA : Page :=
  { contents := 21, font := some 25, extGState := none, xObject := none,
    mediaBox := none, pageDict := 20 }

/-- Incoming page B: fresh Font name `FB`. -/
def pageB : Page :=
  { contents := 29, font := some 33, extGState := none, xObject := none,
    mediaBox := none, pageDict := 28 }

/-- Incoming page C: Font name `G` colliding with the source set; all three
resource categories present so the rename collector reaches the Font
names. -/
def pageC : Page :=
  { contents := 37, font := some 41, extGState := some 44, xObject := some 45,
    mediaBox := none, pageDict := 36 }

/-- Incoming page D: a second page carrying the colliding Font name `G`. -/
def pageD : Page :=
  { contents := 47, font := some 51, extGState := some 54, xObject := some 55,
    mediaBox := none, pageDict := 46 }

/-- Session opened on the concrete document (fuel 99 covers every walk). -/
def session0 : Except String Appender := newPdfAppender 99 baseHeap 0

/-- Placeholder session value (only used as the impossible error fallback
when destructing `session0`). -/
def emptyAppender : Appender :=
  { heap := [], srcResources := [], srcIndirectObjects := [], newObjects := [],
    hasNewObject := [], pagesDict := [], newPagesDict := [], rootId := 0,
    catalogId := 0, ppagesId := 0, pagesId := none, kidsId := none,
    defaultMediaBox := none, resourcesRenameMap := [], objectToObjectCopyMap := [],
    greatestObjNum := 0 }

/-- The session state produced by the constructor on the concrete
document. -/
def sessionSt : Appender :=
  match session0 with
  | .ok st => st
  | .error _ => emptyAppender

/-- The constructor succeeds on the concrete document. -/
theorem session0_ok : session0 = .ok sessionSt := rfl

/-! General lemmas about the association-list and search primitives. -/

theorem aget_aset_self {α β : Type} [DecidableEq α] (es : List (α × β)) (k : α)
    (v : β) : aget (aset es k v) k = some v := by
  induction es with
  | nil => simp [aset, aget]
  | cons e rest ih =>
    by_cases h : k = e.1
    · simp [aset, h, aget]
    · simp [aset, aget, h, ih]

theorem aget_aset_ne {α β : Type} [DecidableEq α] (es : List (α × β)) (k k' : α)
    (v : β) (h : k' ≠ k) : aget (aset es k v) k' = aget es k' := by
  induction es with
  | nil => simp [aset, aget, h]
  | cons e rest ih =>
    by_cases h1 : k = e.1
    · subst h1
      simp [aset, aget, h]
    · by_cases h2 : k' = e.1
      · simp [aset, aget, h1, h2]
      · simp [aset, aget, h1, h2, ih]

theorem aset_mem {α β : Type} [DecidableEq α] (es : List (α × β)) (k : α) (v : β) :
    ∀ e ∈ aset es k v, e = (k, v) ∨ e ∈ es := by
  induction es with
  | nil => simp [aset]
  | cons hd rest ih =>
    obtain ⟨k1, v1⟩ := hd
    intro e he
    by_cases h : k = k1
    · simp only [aset, if_pos h, List.mem_cons] at he
      rcases he with he | he
      · exact Or.inl he
      · exact Or.inr (List.mem_cons_of_mem _ he)
    · simp only [aset, if_neg h, List.mem_cons] at he
      rcases he with he | he
      · exact Or.inr (he ▸ List.mem_cons_self (k1, v1) rest)
      · rcases ih e he with h1 | h1
        · exact Or.inl h1
        · exact Or.inr (List.mem_cons_of_mem _ h1)

theorem aset_length_fresh {α β : Type} [DecidableEq α] (es : List (α × β)) (k : α)
    (v : β) (h : ∀ e ∈ es, e.1 ≠ k) : (aset es k v).length = es.length + 1 := by
  induction es with
  | nil => simp [aset]
  | cons hd rest ih =>
    obtain ⟨k1, v1⟩ := hd
    have hne : k ≠ k1 := fun he => (h (k1, v1) (List.mem_cons_self (k1, v1) rest)) he.symm
    simp only [aset, if_neg hne, List.length_cons]
    rw [ih fun e he => h e (List.mem_cons_of_mem _ he)]

/-- Generic preservation of a predicate along a left fold. -/
theorem foldl_preserve {α β : Type} (f : β → α → β) (P : β → Prop)
    (hf : ∀ b a, P b → P (f b a)) : ∀ (l : List α) (b : β), P b → P (l.foldl f b) := by
  intro l
  induction l with
  | nil => intro b hb; simpa using hb
  | cons x xs ih => intro b hb; simpa using ih (f b x) (hf b x hb)

/-! Claim C3: the minted replacement name carries the lowest free positive
suffix. -/

theorem getNewNameAux_spec (src : List String) (nm : String) :
    ∀ fuel i m, getNewNameAux src nm fuel i = some m →
      ∃ k, i ≤ k ∧ m = nm ++ Nat.repr k ∧ m ∉ src ∧
        ∀ j, i ≤ j → j < k → (nm ++ Nat.repr j) ∈ src := by
  intro fuel
  induction fuel with
  | zero => intro i m h; simp [getNewNameAux] at h
  | succ f ih =>
    intro i m h
    rw [getNewNameAux] at h
    by_cases hc : nm ++ Nat.repr i ∈ src
    · rw [if_pos hc] at h
      obtain ⟨k, hk1, hk2, hk3, hk4⟩ := ih (i + 1) m h
      refine ⟨k, by omega, hk2, hk3, fun j hj1 hj2 => ?_⟩
      rcases Nat.eq_or_lt_of_le hj1 with he | hlt
      · exact he ▸ hc
      · exact hk4 j hlt hj2
    · rw [if_neg hc] at h
      cases h
      exact ⟨i, Nat.le_refl i, rfl, hc, fun j hj1 hj2 => absurd hj1 (by omega)⟩

/-- C3: when `getNewName` mints a replacement for a colliding resource name
over the session's aggregate source resource-name set, the minted name is
the original name followed by the lowest positive integer suffix whose
result is absent from that set — suffix 1 is tried first, and every
smaller positive suffix is present in the set. -/
theorem getNewName_mints_lowest_free_suffix (src : List String) (nm m : String)
    (h : getNewName src nm = some m) :
    ∃ k, 1 ≤ k ∧ m = nm ++ Nat.repr k ∧ m ∉ src ∧
      ∀ j, 1 ≤ j → j < k → (nm ++ Nat.repr j) ∈ src :=
  getNewNameAux_spec src nm (src.length + 1) 1 m h

/-- Witness for C3 at a concrete input: with `A1` taken, `A` is renamed to
`A2`, the suffix 2 being the lowest free one. -/
theorem getNewName_mints_lowest_free_suffix_w :
    ∃ k, 1 ≤ k ∧ "A2" = "A" ++ Nat.repr k ∧ "A2" ∉ ["A1"] ∧
      ∀ j, 1 ≤ j → j < k → ("A" ++ Nat.repr j) ∈ ["A1"] :=
  getNewName_mints_lowest_free_suffix ["A1"] "A" "A2" (by decide)

/-! Claim C6: the pending new-object list never holds an object twice. -/

/-- Invariant of the new-object tracker: the pending list is duplicate-free
(duplicates decided by identity, the arena index) and the membership map
`hasNewObject` holds exactly the queued identities. -/
def TrackerInv (st : Appender) : Prop :=
  st.newObjects.Nodup ∧
    (∀ i ∈ st.hasNewObject, i ∈ st.newObjects) ∧
    ∀ i ∈ st.newObjects, i ∈ st.hasNewObject

instance (st : Appender) : Decidable (TrackerInv st) := by
  unfold TrackerInv; infer_instance

theorem trackerInv_mark (st : Appender) (i : ObjId) (h : TrackerInv st)
    (h1 : i ∉ st.hasNewObject) :
    TrackerInv { st with newObjects := st.newObjects ++ [i],
                         hasNewObject := i :: st.hasNewObject } := by
  obtain ⟨hd, hmem1, hmem2⟩ := h
  have hni : i ∉ st.newObjects := fun hm => h1 (hmem2 i hm)
  refine ⟨?_, ?_, ?_⟩
  · simp [List.nodup_append, hd, hni]
  · intro j hj
    simp only [List.mem_cons] at hj
    rcases hj with rfl | hj
    · simp
    · simp [List.mem_append, hmem1 j hj]
  · intro j hj
    simp only [List.mem_append, List.mem_singleton] at hj
    rcases hj with hj | rfl
    · simp [List.mem_cons, hmem1, hmem2 j hj]
    · simp

theorem addNewObjectsList_inv : ∀ (fuel : Nat) (st : Appender) (work : List ObjId),
    TrackerInv st → TrackerInv (addNewObjectsList fuel st work) := by
  intro fuel
  induction fuel with
  | zero =>
    intro st work h
    simpa [addNewObjectsList] using h
  | succ f ih =>
    intro st work h
    match work with
    | [] => simpa [addNewObjectsList] using h
    | i :: rest =>
      rw [addNewObjectsList]
      by_cases h1 : i ∈ st.hasNewObject
      · rw [if_pos h1]; exact ih st rest h
      · rw [if_neg h1]
        by_cases h2 : i ∈ st.srcIndirectObjects
        · rw [if_pos h2]; exact ih st rest h
        · rw [if_neg h2]
          cases hn : hget st.heap i with
          | indirect num p => exact ih _ _ (trackerInv_mark st i h h1)
          | stream num d data => exact ih _ _ (trackerInv_mark st i h h1)
          | array es => exact ih _ _ h
          | dict es => exact ih _ _ h
          | streams es => exact ih _ _ h
          | null => exact ih _ _ h
          | int n => exact ih _ _ h
          | name s => exact ih _ _ h
          | ref n => exact ih _ _ h

theorem addNewObjectsList_empty : ∀ (fuel : Nat) (st : Appender),
    addNewObjectsList fuel st [] = st := by
  intro fuel st
  cases fuel <;> rfl

theorem addNewObjectsList_skip (fuel : Nat) (st : Appender) (i : ObjId)
    (h : i ∈ st.hasNewObject) : addNewObjectsList fuel st [i] = st := by
  cases fuel with
  | zero => rfl
  | succ f =>
    rw [addNewObjectsList, if_pos h]
    exact addNewObjectsList_empty f st

/-- C6: under the tracker invariant, queueing any object keeps the pending
new-object list duplicate-free (duplicates decided by identity), and
queueing an object that is already in the pending list leaves the whole
session state — in particular the list — unchanged. -/
theorem addNewObjects_queue_unique (fuel : Nat) (st : Appender) (obj : ObjId)
    (h : TrackerInv st) :
    TrackerInv (addNewObjectsList fuel st [obj]) ∧
      (obj ∈ st.newObjects → addNewObjectsList fuel st [obj] = st) :=
  ⟨addNewObjectsList_inv fuel st [obj] h,
    fun hm => addNewObjectsList_skip fuel st obj (h.2.2 obj hm)⟩

/-- Concrete tracker state with one queued object. -/
def demoTracker : Appender :=
  { emptyAppender with
    heap := [.indirect 7 1, .dict []],
    newObjects := [0], hasNewObject := [0] }

/-- Witness for C6: re-queueing the already queued object 0 keeps the
invariant and leaves the state unchanged. -/
theorem addNewObjects_queue_unique_w :
    TrackerInv (addNewObjectsList 9 demoTracker [0]) ∧
      (0 ∈ demoTracker.newObjects → addNewObjectsList 9 demoTracker [0] = demoTracker) :=
  addNewObjects_queue_unique 9 demoTracker 0 (by decide)

/-! Claim C7: the merged bounding box only grows and contains the incoming
box. -/

/-- The union block computes the componentwise min/max of the two boxes. -/
theorem expandMediaBox_some (a b c d a' b' c' d' : Int) :
    (expandMediaBox ⟨a, b, c, d⟩ (some ⟨a', b', c', d'⟩)).1 =
      ⟨min a a', min b b', max c c', max d d'⟩ := by
  simp only [expandMediaBox]
  split_ifs <;> simp_all [Rect.mk.injEq] <;> omega

/-- C7: the MediaBox union computed by `MergePageWith` never moves an edge
of the working page's prior box inward — the lower-left edges only
decrease and the upper-right edges only increase — and whenever the
incoming page supplies a box, the union fully contains it. -/
theorem mergeMediaBox_union (mb : Rect) (inc : Option Rect) :
    (expandMediaBox mb inc).1.llx ≤ mb.llx ∧ (expandMediaBox mb inc).1.lly ≤ mb.lly ∧
    mb.urx ≤ (expandMediaBox mb inc).1.urx ∧ mb.ury ≤ (expandMediaBox mb inc).1.ury ∧
    ∀ b, inc = some b →
      (expandMediaBox mb inc).1.llx ≤ b.llx ∧ (expandMediaBox mb inc).1.lly ≤ b.lly ∧
      b.urx ≤ (expandMediaBox mb inc).1.urx ∧ b.ury ≤ (expandMediaBox mb inc).1.ury := by
  cases inc with
  | none => simp [expandMediaBox]
  | some p =>
    obtain ⟨a, b, c, d⟩ := mb
    obtain ⟨a', b', c', d'⟩ := p
    rw [expandMediaBox_some]
    refine ⟨show min a a' ≤ a by omega, show min b b' ≤ b by omega,
      show c ≤ max c c' by omega, show d ≤ max d d' by omega, fun q hq => ?_⟩
    cases hq
    exact ⟨show min a a' ≤ a' by omega, show min b b' ≤ b' by omega,
      show c' ≤ max c c' by omega, show d' ≤ max d d' by omega⟩

/-- Witness for C7 at a concrete pair of boxes. -/
theorem mergeMediaBox_union_w :
    (expandMediaBox ⟨0, 0, 10, 10⟩ (some ⟨-1, 2, 12, 5⟩)).1.llx ≤ 0 ∧
    (expandMediaBox ⟨0, 0, 10, 10⟩ (some ⟨-1, 2, 12, 5⟩)).1.lly ≤ 0 ∧
    (10 : Int) ≤ (expandMediaBox ⟨0, 0, 10, 10⟩ (some ⟨-1, 2, 12, 5⟩)).1.urx ∧
    (10 : Int) ≤ (expandMediaBox ⟨0, 0, 10, 10⟩ (some ⟨-1, 2, 12, 5⟩)).1.ury ∧
    (expandMediaBox ⟨0, 0, 10, 10⟩ (some ⟨-1, 2, 12, 5⟩)).1.llx ≤ -1 ∧
    (expandMediaBox ⟨0, 0, 10, 10⟩ (some ⟨-1, 2, 12, 5⟩)).1.lly ≤ 2 ∧
    (12 : Int) ≤ (expandMediaBox ⟨0, 0, 10, 10⟩ (some ⟨-1, 2, 12, 5⟩)).1.urx ∧
    (5 : Int) ≤ (expandMediaBox ⟨0, 0, 10, 10⟩ (some ⟨-1, 2, 12, 5⟩)).1.ury := by
  have h := mergeMediaBox_union ⟨0, 0, 10, 10⟩ (some ⟨-1, 2, 12, 5⟩)
  have h5 := h.2.2.2.2 ⟨-1, 2, 12, 5⟩ rfl
  exact ⟨h.1, h.2.1, h.2.2.1, h.2.2.2.1, h5.1, h5.2.1, h5.2.2.1, h5.2.2.2⟩

/-! Claim C10: a page without an array-valued Contents entry is untouched
by the rename pass. -/

/-- C10: when the page's Contents entry is absent or is not an array (the
`core.GetArray` guard fails), `renameResources` returns success and the
whole session state is unchanged — no resource key is renamed, the session
rename map is not extended and no content stream is rewritten — regardless
of any name collisions the page may have. -/
theorem renameResources_no_contents_frame (fuel : Nat) (st : Appender)
    (pageId : ObjId)
    (h : getArrayM st.heap (aget (dictEntries st.heap pageId) "Contents") = none) :
    renameResources fuel st pageId = (st, none) := by
  rw [renameResources, h]

/-- Session whose page 0 has colliding resource names but no Contents
entry. -/
def noContentsSession : Appender :=
  { emptyAppender with
    heap := [.dict [("Resources", 1)], .dict [("ExtGState", 2), ("XObject", 3), ("Font", 4)],
             .dict [], .dict [], .dict [("G", 5)], .name "X"],
    srcResources := ["G"] }

/-- Witness for C10: the rename pass leaves the no-Contents session
untouched even though the page's Font name `G` collides with the source
set. -/
theorem renameResources_no_contents_frame_w :
    renameResources 9 noContentsSession 0 = (noContentsSession, none) :=
  renameResources_no_contents_frame 9 noContentsSession 0 (by decide)

/-! Claim C1: committing a zero-operation session. -/

/-- C1: a freshly opened session has an empty pending list, so the latest
`WriteToFile` emits exactly the source bytes; the early `WriteFile`
(src/unnamed/part_001), however, returns right after truncating the
destination, emitting an empty file instead of the source bytes. -/
theorem zeroOpsCommitOutput :
    sessionSt.newObjects = [] ∧
    writeToFile ['D'] sessionSt ['S', 'R', 'C'] = ['S', 'R', 'C'] ∧
    writeFileV1 ['D'] [] [] ['S', 'R', 'C'] = [] ∧
    (['S', 'R', 'C'] : List Char) ≠ [] := by decide

/-! Claim C2: the closure property of the new-object tracker fails on a
second merge into the same page index. -/

/-- C2: after merging page A and then page B into page 0 of the concrete
session (both merges succeed), the working page object 66 is in the
pending list, yet object 75 — the copy of page B's Font object, merged
into the page's resource dictionary during the second call — is reachable
from it while belonging neither to the pending list nor to the source
object set: the closure property is violated because the final
`addNewObjects(newPageInd)` returns immediately on the already-queued
working page. -/
theorem trackerClosureViolation :
    (mergePageWith 99 sessionSt 0 pageA).2 = none ∧
    (mergePageWith 99 (mergePageWith 99 sessionSt 0 pageA).1 0 pageB).2 = none ∧
    66 ∈ (mergePageWith 99 (mergePageWith 99 sessionSt 0 pageA).1 0 pageB).1.newObjects ∧
    75 ∈ reachFrom 199 (mergePageWith 99 (mergePageWith 99 sessionSt 0 pageA).1 0 pageB).1.heap 66 ∧
    isTrackable (hget (mergePageWith 99 (mergePageWith 99 sessionSt 0 pageA).1 0 pageB).1.heap 75) = true ∧
    75 ∉ (mergePageWith 99 (mergePageWith 99 sessionSt 0 pageA).1 0 pageB).1.newObjects ∧
    75 ∉ (mergePageWith 99 (mergePageWith 99 sessionSt 0 pageA).1 0 pageB).1.srcIndirectObjects := by
  decide

/-! Claim C4: repeating a colliding rename does not produce increasing
suffixes. -/

/-- C4 counterexample: adding page C and then page D — both carrying the
colliding resource name `G` — mints the replacement `G1` both times: after
each operation the session rename map holds `G1` for `G`, and the second
mint evaluates to `G1` again, not to a strictly larger suffix. -/
theorem repeatedRenameSameSuffix :
    (addPages 99 sessionSt [pageC]).2 = none ∧
    (addPages 99 sessionSt [pageC]).1.resourcesRenameMap = [("G", "G1")] ∧
    (addPages 99 (addPages 99 sessionSt [pageC]).1 [pageD]).2 = none ∧
    (addPages 99 (addPages 99 sessionSt [pageC]).1 [pageD]).1.resourcesRenameMap =
      [("G", "G1")] ∧
    getNewName (addPages 99 sessionSt [pageC]).1.srcResources "G" = some "G1" ∧
    getNewName sessionSt.srcResources "G" = some "G1" := by decide

/-! Claim C5: the content-stream rewrite is not token-boundary exact. -/

/-- Session whose page 0 carries the colliding Font name `G` next to the
unrelated longer name `GS`, with the decoded stream using both tokens. -/
def rewriteDemo : Appender :=
  { emptyAppender with
    heap := [.dict [("Contents", 1), ("Resources", 2)], .array [6],
             .dict [("ExtGState", 3), ("XObject", 4), ("Font", 5)], .dict [],
             .dict [], .dict [("G", 8), ("GS", 9)],
             .stream 0 7 ['/', 'G', ' ', 'g', 's', ' ', '/', 'G', 'S', ' ', 'q'],
             .dict [("Length", 10)], .name "g1", .name "g2", .int 11],
    srcResources := ["G"] }

/-- C5: renaming `G` to `G1` rewrites the decoded stream by plain substring
replacement, so the unrelated longer token `/GS` is corrupted to `/G1S`
even though only `G` was renamed (`GS` gets no rename-map entry). -/
theorem renameRewriteCorruptsLongerToken :
    (renameResources 99 rewriteDemo 0).2 = none ∧
    hget (renameResources 99 rewriteDemo 0).1.heap 6 =
      .stream 0 7 ['/', 'G', '1', ' ', 'g', 's', ' ', '/', 'G', '1', 'S', ' ', 'q'] ∧
    aget (renameResources 99 rewriteDemo 0).1.resourcesRenameMap "G" = some "G1" ∧
    aget (renameResources 99 rewriteDemo 0).1.resourcesRenameMap "GS" = none := by decide

/-! Claim C8: the Count written by AddPages. -/

/-- The concrete document with its page tree declaring `Count 7` while
holding a single kid. -/
def heap8 : Heap := baseHeap.set 8 (.int 7)

/-- Session opened on the mismatched document. -/
def session8 : Except String Appender := newPdfAppender 99 heap8 0

/-- Session state on the mismatched document. -/
def session8St : Appender :=
  match session8 with
  | .ok st => st
  | .error _ => emptyAppender

/-- C8 counterexample: on a page tree declaring `Count 7` with one kid,
`AddPages` with one page rewrites the declared Count to 2 — the number of
tracked page entries — not to the declared 7 + 1 = 8. -/
theorem addPagesCountMismatch :
    (aget (dictEntries session8St.heap 6) "Count").map (fun i => hget session8St.heap i) =
      some (.int 7) ∧
    (addPages 99 session8St [pageA]).2 = none ∧
    (aget (dictEntries (addPages 99 session8St [pageA]).1.heap 6) "Count").map
        (fun i => hget (addPages 99 session8St [pageA]).1.heap i) = some (.int 2) ∧
    (2 : Int) ≠ 7 + 1 := by decide

/-! Claim C9: merge accepts indices outside the source page count once
pages have been added. -/

/-- C9 counterexample: the source document has exactly one page (index 0),
yet after `AddPages` the call `MergePageWith(1, pageB)` succeeds — no error
is returned and a merged page is recorded for index 1, although index 1
lies outside the source document's existing page count. -/
theorem mergeOutsideSourceSucceeds :
    sessionSt.pagesDict.length = 1 ∧
    (addPages 99 sessionSt [pageA]).2 = none ∧
    (mergePageWith 99 (addPages 99 sessionSt [pageA]).1 1 pageB).2 = none ∧
    (aget (mergePageWith 99 (addPages 99 sessionSt [pageA]).1 1 pageB).1.newPagesDict 1).isSome =
      true := by decide

/-! Heap-access lemmas used by the frame arguments below. -/

theorem hget_valid {h : Heap} {i : ObjId} (hne : hget h i ≠ .null) : i < h.length := by
  by_contra hcon
  push_neg at hcon
  exact hne (by unfold hget; exact List.getD_eq_default _ _ hcon)

theorem hget_set_self (h : Heap) (i : ObjId) (n : Node) (hi : i < h.length) :
    hget (h.set i n) i = n := by
  unfold hget
  rw [List.getD_eq_getElem _ _ (by simpa using hi)]
  simp [List.getElem_set]

theorem hget_set_ne (h : Heap) (i j : ObjId) (n : Node) (hij : j ≠ i) :
    hget (h.set i n) j = hget h j := by
  unfold hget
  rcases Nat.lt_or_ge j h.length with hj | hj
  · rw [List.getD_eq_getElem _ _ (by simpa using hj), List.getD_eq_getElem _ _ hj,
      List.getElem_set, if_neg (fun he => hij he.symm)]
  · rw [List.getD_eq_default _ _ (by simpa using hj), List.getD_eq_default _ _ hj]

theorem hget_append_lt (h : Heap) (l : List Node) (i : ObjId) (hi : i < h.length) :
    hget (h ++ l) i = hget h i :=
  List.getD_append h l .null i hi

/-- Element-exact preservation of arrays across a heap transformation;
holds for every session mutation except the deliberate kids-array writes. -/
def ArrKeep (h h' : Heap) : Prop :=
  ∀ i es, hget h i = .array es → hget h' i = .array es

/-- Kind preservation of dictionaries across a heap transformation (their
entries may change). -/
def DictKeep (h h' : Heap) : Prop :=
  ∀ i, (∃ es, hget h i = .dict es) → ∃ es', hget h' i = .dict es'

theorem arrKeep_refl (h : Heap) : ArrKeep h h := fun _ _ hi => hi

theorem arrKeep_trans {h1 h2 h3 : Heap} (a : ArrKeep h1 h2) (b : ArrKeep h2 h3) :
    ArrKeep h1 h3 := fun i es hi => b i es (a i es hi)

theorem dictKeep_refl (h : Heap) : DictKeep h h := fun _ hi => hi

theorem dictKeep_trans {h1 h2 h3 : Heap} (a : DictKeep h1 h2) (b : DictKeep h2 h3) :
    DictKeep h1 h3 := fun i hi => b i (a i hi)

theorem arrKeep_of_set (h : Heap) (j : ObjId) (n : Node)
    (hn : ∀ es, hget h j ≠ .array es) : ArrKeep h (h.set j n) := by
  intro i es hi
  by_cases hij : i = j
  · exact absurd (hij ▸ hi) (hn es)
  · rw [hget_set_ne _ _ _ _ hij]
    exact hi

theorem dictKeep_of_set (h : Heap) (j : ObjId) (n : Node)
    (hn : (∃ es, hget h j = .dict es) → ∃ es', n = .dict es') :
    DictKeep h (h.set j n) := by
  intro i hi
  by_cases hij : i = j
  · subst hij
    obtain ⟨es', hn'⟩ := hn hi
    obtain ⟨es, he⟩ := hi
    have hlt : i < h.length := hget_valid (by rw [he]; simp)
    exact ⟨es', by rw [hget_set_self _ _ _ hlt, hn']⟩
  · obtain ⟨es, he⟩ := hi
    exact ⟨es, by rw [hget_set_ne _ _ _ _ hij]; exact he⟩

theorem arrKeep_append (h : Heap) (l : List Node) : ArrKeep h (h ++ l) := by
  intro i es hi
  rw [hget_append_lt _ _ _ (hget_valid (by rw [hi]; simp))]
  exact hi

theorem dictKeep_append (h : Heap) (l : List Node) : DictKeep h (h ++ l) := by
  intro i hi
  obtain ⟨es, he⟩ := hi
  exact ⟨es, by rw [hget_append_lt _ _ _ (hget_valid (by rw [he]; simp))]; exact he⟩

theorem arrKeep_hsetDict (h : Heap) (j : ObjId) (k : String) (v : ObjId) :
    ArrKeep h (hsetDict h j k v) := by
  unfold hsetDict
  cases hj : hget h j
  case dict es0 => exact arrKeep_of_set h j _ (fun es => by rw [hj]; simp)
  all_goals exact arrKeep_refl h

theorem dictKeep_hsetDict (h : Heap) (j : ObjId) (k : String) (v : ObjId) :
    DictKeep h (hsetDict h j k v) := by
  unfold hsetDict
  cases hj : hget h j
  case dict es0 => exact dictKeep_of_set h j _ (fun _ => ⟨_, rfl⟩)
  all_goals exact dictKeep_refl h

theorem arrKeep_hremoveDict (h : Heap) (j : ObjId) (k : String) :
    ArrKeep h (hremoveDict h j k) := by
  unfold hremoveDict
  cases hj : hget h j
  case dict es0 => exact arrKeep_of_set h j _ (fun es => by rw [hj]; simp)
  all_goals exact arrKeep_refl h

theorem dictKeep_hremoveDict (h : Heap) (j : ObjId) (k : String) :
    DictKeep h (hremoveDict h j k) := by
  unfold hremoveDict
  cases hj : hget h j
  case dict es0 => exact dictKeep_of_set h j _ (fun _ => ⟨_, rfl⟩)
  all_goals exact dictKeep_refl h

theorem arrKeep_hmergeDict (h : Heap) (j : ObjId) (src : List (String × ObjId)) :
    ArrKeep h (hmergeDict h j src) := by
  unfold hmergeDict
  cases hj : hget h j
  case dict es0 => exact arrKeep_of_set h j _ (fun es => by rw [hj]; simp)
  all_goals exact arrKeep_refl h

theorem dictKeep_hmergeDict (h : Heap) (j : ObjId) (src : List (String × ObjId)) :
    DictKeep h (hmergeDict h j src) := by
  unfold hmergeDict
  cases hj : hget h j
  case dict es0 => exact dictKeep_of_set h j _ (fun _ => ⟨_, rfl⟩)
  all_goals exact dictKeep_refl h

theorem arrKeep_hstreamSetData (h : Heap) (j : ObjId) (data : List Char) :
    ArrKeep h (hstreamSetData h j data) := by
  unfold hstreamSetData
  cases hj : hget h j
  case stream num d old => exact arrKeep_of_set h j _ (fun es => by rw [hj]; simp)
  all_goals exact arrKeep_refl h

theorem dictKeep_hstreamSetData (h : Heap) (j : ObjId) (data : List Char) :
    DictKeep h (hstreamSetData h j data) := by
  unfold hstreamSetData
  cases hj : hget h j
  case stream num d old =>
    refine dictKeep_of_set h j _ (fun hd => ?_)
    obtain ⟨es, he⟩ := hd
    rw [hj] at he
    cases he
  all_goals exact dictKeep_refl h

theorem dictKeep_harrAppend (h : Heap) (j : ObjId) (vs : List ObjId) :
    DictKeep h (harrAppend h j vs) := by
  unfold harrAppend
  cases hj : hget h j
  case array es =>
    refine dictKeep_of_set h j _ (fun hd => ?_)
    obtain ⟨es', he⟩ := hd
    rw [hj] at he
    cases he
  all_goals exact dictKeep_refl h

theorem dictKeep_harrSet (h : Heap) (j : ObjId) (n : Nat) (v : ObjId) :
    DictKeep h (harrSet h j n v) := by
  unfold harrSet
  cases hj : hget h j
  case array es =>
    refine dictKeep_of_set h j _ (fun hd => ?_)
    obtain ⟨es', he⟩ := hd
    rw [hj] at he
    cases he
  all_goals exact dictKeep_refl h

/-- Session fields untouched by the rename pass, the tracker and the copy
machinery. -/
def FixedFields (st st' : Appender) : Prop :=
  st'.srcResources = st.srcResources ∧
  st'.srcIndirectObjects = st.srcIndirectObjects ∧
  st'.pagesDict = st.pagesDict ∧
  st'.newPagesDict = st.newPagesDict ∧
  st'.pagesId = st.pagesId ∧
  st'.kidsId = st.kidsId ∧
  st'.ppagesId = st.ppagesId ∧
  st'.defaultMediaBox = st.defaultMediaBox

theorem fixedFields_refl (st : Appender) : FixedFields st st :=
  ⟨rfl, rfl, rfl, rfl, rfl, rfl, rfl, rfl⟩

theorem fixedFields_trans {a b c : Appender} (x : FixedFields a b)
    (y : FixedFields b c) : FixedFields a c := by
  obtain ⟨x1, x2, x3, x4, x5, x6, x7, x8⟩ := x
  obtain ⟨y1, y2, y3, y4, y5, y6, y7, y8⟩ := y
  exact ⟨y1.trans x1, y2.trans x2, y3.trans x3, y4.trans x4, y5.trans x5,
    y6.trans x6, y7.trans x7, y8.trans x8⟩

/-- Combined frame: old arrays survive unchanged, dictionary kinds survive,
and the fixed session fields are untouched. -/
def StepKeep (st st' : Appender) : Prop :=
  ArrKeep st.heap st'.heap ∧ DictKeep st.heap st'.heap ∧ FixedFields st st'

theorem stepKeep_refl (st : Appender) : StepKeep st st :=
  ⟨arrKeep_refl _, dictKeep_refl _, fixedFields_refl _⟩

theorem stepKeep_trans {a b c : Appender} (x : StepKeep a b) (y : StepKeep b c) :
    StepKeep a c :=
  ⟨arrKeep_trans x.1 y.1, dictKeep_trans x.2.1 y.2.1, fixedFields_trans x.2.2 y.2.2⟩

/-- The worklist tracker only rewrites the two tracker fields. -/
theorem addNewObjectsList_shape : ∀ (fuel : Nat) (st : Appender) (work : List ObjId),
    ∃ no hn, addNewObjectsList fuel st work =
      { st with newObjects := no, hasNewObject := hn } := by
  intro fuel
  induction fuel with
  | zero => intro st work; exact ⟨st.newObjects, st.hasNewObject, rfl⟩
  | succ f ih =>
    intro st work
    match work with
    | [] => exact ⟨st.newObjects, st.hasNewObject, rfl⟩
    | i :: rest =>
      rw [addNewObjectsList]
      by_cases h1 : i ∈ st.hasNewObject
      · rw [if_pos h1]; exact ih st rest
      · rw [if_neg h1]
        by_cases h2 : i ∈ st.srcIndirectObjects
        · rw [if_pos h2]; exact ih st rest
        · rw [if_neg h2]
          cases hn : hget st.heap i with
          | indirect num p =>
            obtain ⟨no', hn', he⟩ := ih
              { st with newObjects := st.newObjects ++ [i],
                        hasNewObject := i :: st.hasNewObject } (p :: rest)
            exact ⟨no', hn', he⟩
          | stream num d data =>
            obtain ⟨no', hn', he⟩ := ih
              { st with newObjects := st.newObjects ++ [i],
                        hasNewObject := i :: st.hasNewObject } (d :: rest)
            exact ⟨no', hn', he⟩
          | array es => exact ih st (es ++ rest)
          | dict es => exact ih st (es.map Prod.snd ++ rest)
          | streams es => exact ih st (es ++ rest)
          | null => exact ih st rest
          | int n => exact ih st rest
          | name s => exact ih st rest
          | ref n => exact ih st rest

theorem addNewObjectsList_keep (fuel : Nat) (st : Appender) (work : List ObjId) :
    StepKeep st (addNewObjectsList fuel st work) := by
  obtain ⟨no, hn, he⟩ := addNewObjectsList_shape fuel st work
  rw [he]
  exact ⟨arrKeep_refl _, dictKeep_refl _, fixedFields_refl _⟩

theorem renamePhase1Step_keep (st : Appender)
    (b : Appender × List (String × String) × Option String) (a : String × ObjId)
    (hb : StepKeep st b.1) : StepKeep st (renamePhase1Step b a).1 := by
  obtain ⟨b1, smap, err⟩ := b
  unfold renamePhase1Step
  cases err with
  | some e => exact hb
  | none =>
    dsimp only at hb ⊢
    by_cases hc : a.1 ∈ b1.srcResources
    · rw [if_pos hc]
      cases hg : getNewName b1.srcResources a.1 with
      | none => exact hb
      | some nn =>
        exact stepKeep_trans hb ⟨arrKeep_refl _, dictKeep_refl _, fixedFields_refl _⟩
    · rw [if_neg hc]; exact hb

theorem renamePhase1_keep (st : Appender) (names : List (String × ObjId)) :
    StepKeep st (renamePhase1 st names).1 := by
  unfold renamePhase1
  exact foldl_preserve renamePhase1Step (fun acc => StepKeep st acc.1)
    (renamePhase1Step_keep st) names (st, [], none) (stepKeep_refl st)

theorem renamePhase2Step_keep (fuel : Nat) (st : Appender) (b : Appender)
    (a : String × ObjId) (hb : StepKeep st b) :
    StepKeep st (renamePhase2Step fuel b a) := by
  unfold renamePhase2Step
  cases h1 : aget b.resourcesRenameMap a.1 with
  | none => exact hb
  | some nn =>
    dsimp only
    cases h2 : aget (dictEntries b.heap a.2) a.1 with
    | none => exact hb
    | some obj =>
      dsimp only
      refine stepKeep_trans hb (stepKeep_trans ?_ (addNewObjectsList_keep fuel _ [obj]))
      refine ⟨?_, ?_, fixedFields_refl _⟩
      · exact arrKeep_trans (arrKeep_hsetDict _ _ _ _) (arrKeep_hremoveDict _ _ _)
      · exact dictKeep_trans (dictKeep_hsetDict _ _ _ _) (dictKeep_hremoveDict _ _ _)

theorem renamePhase2_keep (fuel : Nat) (st : Appender)
    (names : List (String × ObjId)) : StepKeep st (renamePhase2 fuel st names) := by
  unfold renamePhase2
  exact foldl_preserve (renamePhase2Step fuel) (fun b => StepKeep st b)
    (renamePhase2Step_keep fuel st) names st (stepKeep_refl st)

theorem renamePhase3Step_keep (smap : List (String × String)) (st : Appender)
    (b : Appender) (a : ObjId) (hb : StepKeep st b) :
    StepKeep st (renamePhase3Step smap b a) := by
  unfold renamePhase3Step
  cases h1 : getStreamM b.heap (some a) with
  | none => exact hb
  | some sid =>
    dsimp only
    cases h2 : hget b.heap sid with
    | stream num dictId data =>
      refine stepKeep_trans hb ⟨?_, ?_, fixedFields_refl _⟩
      · exact arrKeep_trans (arrKeep_hstreamSetData _ _ _)
          (arrKeep_trans (arrKeep_append _ _) (arrKeep_hsetDict _ _ _ _))
      · exact dictKeep_trans (dictKeep_hstreamSetData _ _ _)
          (dictKeep_trans (dictKeep_append _ _) (dictKeep_hsetDict _ _ _ _))
    | null => exact hb
    | int n => exact hb
    | name s => exact hb
    | ref n => exact hb
    | indirect num p => exact hb
    | array es => exact hb
    | dict es => exact hb
    | streams es => exact hb

theorem renamePhase3_keep (st : Appender) (smap : List (String × String))
    (elems : List ObjId) : StepKeep st (renamePhase3 st smap elems) := by
  unfold renamePhase3
  exact foldl_preserve (renamePhase3Step smap) (fun b => StepKeep st b)
    (renamePhase3Step_keep smap st) elems st (stepKeep_refl st)

theorem renameResources_keep (fuel : Nat) (st : Appender) (pageId : ObjId) :
    StepKeep st (renameResources fuel st pageId).1 := by
  unfold renameResources
  cases h1 : getArrayM st.heap (aget (dictEntries st.heap pageId) "Contents") with
  | none => exact stepKeep_refl st
  | some contentsId =>
    dsimp only
    cases h2 : renamePhase1 st (getPageResourcesByName st.heap false pageId) with
    | mk st1 pr =>
      obtain ⟨smap, err⟩ := pr
      have hk1 : StepKeep st st1 := by
        have hx := renamePhase1_keep st (getPageResourcesByName st.heap false pageId)
        rw [h2] at hx
        exact hx
      cases err with
      | some e => exact hk1
      | none =>
        dsimp only
        exact stepKeep_trans hk1 (stepKeep_trans
          (renamePhase2_keep fuel st1 (getPageResourcesByName st.heap false pageId))
          (renamePhase3_keep _ smap _))

theorem copyGraph_heap_shape (fuel : Nat) (h : Heap) (memo : List (ObjId × ObjId))
    (i : ObjId) (r : Heap × List (ObjId × ObjId) × ObjId)
    (hr : copyGraph fuel h memo i = some r) : ∃ ns, r.1 = h ++ ns := by
  unfold copyGraph at hr
  cases hc : collectCopy fuel h memo [] [i] with
  | none => rw [hc] at hr; cases hr
  | some fresh =>
    rw [hc] at hr
    dsimp only at hr
    cases hr
    exact ⟨_, rfl⟩

theorem copyPageShallowStep_heap (h0 : Heap) (b : Heap × List (String × ObjId))
    (a : String × ObjId) (hb : ∃ ns, b.1 = h0 ++ ns) :
    ∃ ns, (copyPageShallowStep b a).1 = h0 ++ ns := by
  obtain ⟨ns, he⟩ := hb
  unfold copyPageShallowStep
  cases hget b.1 a.2 <;> dsimp only [halloc] <;>
    first
      | exact ⟨ns, he⟩
      | exact ⟨ns ++ [_], by rw [he, List.append_assoc]⟩

theorem ensureResourcesDict_keep (h : Heap) (pd : ObjId) :
    ArrKeep h (ensureResourcesDict h pd).1 ∧ DictKeep h (ensureResourcesDict h pd).1 := by
  unfold ensureResourcesDict
  cases aget (dictEntries h pd) "Resources" with
  | none => exact ⟨arrKeep_append _ _, dictKeep_append _ _⟩
  | some r =>
    dsimp only
    cases hget h r <;>
      first
        | exact ⟨arrKeep_refl _, dictKeep_refl _⟩
        | exact ⟨arrKeep_append _ _, dictKeep_append _ _⟩

theorem setCategory_keep (h : Heap) (resId : ObjId) (cat : String)
    (v : Option ObjId) : ArrKeep h (setCategory h resId cat v) ∧
      DictKeep h (setCategory h resId cat v) := by
  unfold setCategory
  cases v with
  | none => exact ⟨arrKeep_refl _, dictKeep_refl _⟩
  | some x => exact ⟨arrKeep_hsetDict _ _ _ _, dictKeep_hsetDict _ _ _ _⟩

theorem toPdfObject_keep (h : Heap) (p : Page) :
    ArrKeep h (toPdfObject h p) ∧ DictKeep h (toPdfObject h p) := by
  unfold toPdfObject
  dsimp only
  by_cases hc : p.font = none ∧ p.extGState = none ∧ p.xObject = none
  · rw [if_pos hc]
    exact ⟨arrKeep_hsetDict _ _ _ _, dictKeep_hsetDict _ _ _ _⟩
  · rw [if_neg hc]
    have k1a : ArrKeep h (hsetDict h p.pageDict "Contents" p.contents) :=
      arrKeep_hsetDict _ _ _ _
    have k1b : DictKeep h (hsetDict h p.pageDict "Contents" p.contents) :=
      dictKeep_hsetDict _ _ _ _
    generalize hg1 : hsetDict h p.pageDict "Contents" p.contents = h1 at k1a k1b ⊢
    have k2 := ensureResourcesDict_keep h1 p.pageDict
    generalize hg2 : ensureResourcesDict h1 p.pageDict = er at k2 ⊢
    obtain ⟨hE, rE⟩ := er
    have k3a : ArrKeep hE (hsetDict hE p.pageDict "Resources" rE) :=
      arrKeep_hsetDict _ _ _ _
    have k3b : DictKeep hE (hsetDict hE p.pageDict "Resources" rE) :=
      dictKeep_hsetDict _ _ _ _
    generalize hg3 : hsetDict hE p.pageDict "Resources" rE = h2 at k3a k3b ⊢
    have k4 := setCategory_keep h2 rE "Font" p.font
    generalize hg4 : setCategory h2 rE "Font" p.font = h3 at k4 ⊢
    have k5 := setCategory_keep h3 rE "ExtGState" p.extGState
    generalize hg5 : setCategory h3 rE "ExtGState" p.extGState = h4 at k5 ⊢
    have k6 := setCategory_keep h4 rE "XObject" p.xObject
    exact ⟨arrKeep_trans k1a (arrKeep_trans k2.1 (arrKeep_trans k3a
        (arrKeep_trans k4.1 (arrKeep_trans k5.1 k6.1)))),
      dictKeep_trans k1b (dictKeep_trans k2.2 (dictKeep_trans k3b
        (dictKeep_trans k4.2 (dictKeep_trans k5.2 k6.2))))⟩

theorem copyPage_keep (fuel : Nat) (st : Appender) (p : Page)
    (r : Appender × ObjId × ObjId) (hr : copyPage fuel st p = some r) :
    StepKeep st r.1 := by
  unfold copyPage at hr
  dsimp only at hr
  have hsh := foldl_preserve copyPageShallowStep
    (fun acc => ∃ ns, acc.1 = toPdfObject st.heap p ++ ns)
    (copyPageShallowStep_heap (toPdfObject st.heap p))
    (dictEntries (toPdfObject st.heap p) p.pageDict)
    (toPdfObject st.heap p, [])
    ⟨[], (List.append_nil _).symm⟩
  obtain ⟨ns1, hns1⟩ := hsh
  generalize hgf : List.foldl copyPageShallowStep (toPdfObject st.heap p, [])
      (dictEntries (toPdfObject st.heap p) p.pageDict) = sh at hns1 hr
  obtain ⟨sh1, sh2⟩ := sh
  dsimp only at hns1 hr
  split at hr
  · cases hr
  · rename_i h2 memo2 cpd hcg
    cases hr
    obtain ⟨ns2, hns2⟩ := copyGraph_heap_shape _ _ _ _ _ hcg
    dsimp only at hns2
    refine ⟨?_, ?_, fixedFields_refl _⟩
    · have a0 := (toPdfObject_keep st.heap p).1
      have a1 : ArrKeep st.heap sh1 := by
        rw [hns1]
        exact arrKeep_trans a0 (arrKeep_append _ ns1)
      have a2 : ArrKeep st.heap (halloc sh1 (Node.dict sh2)).1 :=
        arrKeep_trans a1 (arrKeep_append _ _)
      have a3 : ArrKeep st.heap h2 := by
        rw [hns2]
        exact arrKeep_trans a2 (arrKeep_append _ ns2)
      exact arrKeep_trans a3 (arrKeep_append _ _)
    · have d0 := (toPdfObject_keep st.heap p).2
      have d1 : DictKeep st.heap sh1 := by
        rw [hns1]
        exact dictKeep_trans d0 (dictKeep_append _ ns1)
      have d2 : DictKeep st.heap (halloc sh1 (Node.dict sh2)).1 :=
        dictKeep_trans d1 (dictKeep_append _ _)
      have d3 : DictKeep st.heap h2 := by
        rw [hns2]
        exact dictKeep_trans d2 (dictKeep_append _ ns2)
      exact dictKeep_trans d3 (dictKeep_append _ _)

/-! Claim C4 (amended): repeating a colliding rename in one session. -/

theorem addPagesOne_srcRes (fuel : Nat) (st : Appender) (p : Page) :
    (addPagesOne fuel st p).1.srcResources = st.srcResources := by
  unfold addPagesOne
  cases hcp : copyPage fuel st p with
  | none => rfl
  | some r =>
    obtain ⟨st1, ind, pd⟩ := r
    dsimp only
    have h1 : st1.srcResources = st.srcResources :=
      (copyPage_keep fuel st p _ hcp).2.2.1
    generalize hg3 :
      (renameResources fuel
        { st1 with heap := hsetDict st1.heap pd "Parent" st1.ppagesId } pd).1 = st3
    have h3 : st3.srcResources = st.srcResources := by
      rw [← hg3]
      exact ((renameResources_keep fuel _ pd).2.2.1).trans h1
    obtain ⟨no, hn, h5⟩ := addNewObjectsList_shape fuel
      { st3 with pagesDict := aset st3.pagesDict st3.pagesDict.length pd,
                 newPagesDict := aset st3.newPagesDict st3.pagesDict.length ind } [ind]
    rw [h5]
    dsimp only
    cases st3.kidsId <;> cases st3.pagesId <;> dsimp only <;> exact h3

theorem addPagesStep_srcRes (fuel : Nat) (v : List String)
    (b : Appender × Option String) (a : Page) (hb : b.1.srcResources = v) :
    (addPagesStep fuel b a).1.srcResources = v := by
  obtain ⟨b1, err⟩ := b
  unfold addPagesStep
  cases err with
  | some e => exact hb
  | none =>
    dsimp only at hb ⊢
    rw [addPagesOne_srcRes]
    exact hb

theorem addPages_srcRes (fuel : Nat) (st : Appender) (ps : List Page) :
    (addPages fuel st ps).1.srcResources = st.srcResources := by
  unfold addPages
  exact foldl_preserve (addPagesStep fuel)
    (fun b => b.1.srcResources = st.srcResources)
    (addPagesStep_srcRes fuel st.srcResources) ps (st, none) rfl

/-- C4 amended: the source resource-name set is immutable for the life of
the session — an AddPages operation never changes it — so renaming the
same colliding name a second time mints exactly the same replacement as
the first time (the lowest free suffix over that set), not a strictly
larger one; and a minted name never collides with the set. -/
theorem repeatedRenameDeterministic (fuel : Nat) (st : Appender) (ps : List Page)
    (nm : String) (_hcol : nm ∈ st.srcResources) :
    (addPages fuel st ps).1.srcResources = st.srcResources ∧
    getNewName (addPages fuel st ps).1.srcResources nm = getNewName st.srcResources nm ∧
    ∀ m, getNewName st.srcResources nm = some m → m ∉ st.srcResources := by
  refine ⟨addPages_srcRes fuel st ps, by rw [addPages_srcRes], fun m hm => ?_⟩
  obtain ⟨k, _, _, hk3, _⟩ := getNewNameAux_spec st.srcResources nm _ _ _ hm
  exact hk3

/-- Witness for the amended C4 on the concrete session: after adding page C
(which renames `G`), the set is unchanged and the second mint for `G`
equals the first. -/
theorem repeatedRenameDeterministic_w :
    (addPages 99 sessionSt [pageC]).1.srcResources = sessionSt.srcResources ∧
    getNewName (addPages 99 sessionSt [pageC]).1.srcResources "G" =
      getNewName sessionSt.srcResources "G" ∧
    ∀ m, getNewName sessionSt.srcResources "G" = some m → m ∉ sessionSt.srcResources :=
  repeatedRenameDeterministic 99 sessionSt [pageC] "G" (by decide)

/-! Claim C9 (amended): the failure cases of MergePageWith. -/

theorem hget_default (h : Heap) (i : ObjId) (hi : h.length ≤ i) :
    hget h i = .null := by
  unfold hget
  exact List.getD_eq_default _ _ hi

theorem aget_dictEntries_hsetDict_ne (h : Heap) (j : ObjId) (k : String)
    (v : ObjId) (i : ObjId) (key : String) (hkey : key ≠ k) :
    aget (dictEntries (hsetDict h j k v) i) key = aget (dictEntries h i) key := by
  unfold hsetDict
  cases hj : hget h j with
  | dict es =>
    by_cases hij : i = j
    · subst hij
      have hlt : i < h.length := hget_valid (by rw [hj]; simp)
      unfold dictEntries
      rw [hget_set_self _ _ _ hlt, hj]
      exact aget_aset_ne es k key v hkey
    · unfold dictEntries
      rw [hget_set_ne _ _ _ _ hij]
  | null => rfl
  | int n => rfl
  | name s => rfl
  | ref n => rfl
  | indirect num p => rfl
  | array es => rfl
  | stream num d data => rfl
  | streams es => rfl

theorem append_shape_trans {h a b : Heap} (h1 : ∃ ns, a = h ++ ns)
    (h2 : ∃ ns, b = a ++ ns) : ∃ ns, b = h ++ ns := by
  obtain ⟨n1, e1⟩ := h1
  obtain ⟨n2, e2⟩ := h2
  exact ⟨n1 ++ n2, by rw [e2, e1, List.append_assoc]⟩

theorem copyField_heap_shape (fuel : Nat) (h : Heap) (memo : List (ObjId × ObjId))
    (oi : Option ObjId) (r : Heap × List (ObjId × ObjId) × Option ObjId)
    (hr : copyField fuel h memo oi = some r) : ∃ ns, r.1 = h ++ ns := by
  unfold copyField at hr
  cases oi with
  | none =>
    cases hr
    exact ⟨[], (List.append_nil _).symm⟩
  | some i =>
    dsimp only at hr
    cases hcg : copyGraph fuel h memo i with
    | none => rw [hcg] at hr; cases hr
    | some rr =>
      obtain ⟨hh, mm, ii⟩ := rr
      rw [hcg] at hr
      dsimp only at hr
      cases hr
      obtain ⟨ns, hns⟩ := copyGraph_heap_shape _ _ _ _ _ hcg
      exact ⟨ns, hns⟩

theorem duplicatePage_heap_shape (fuel : Nat) (h : Heap) (p : Page)
    (r : Heap × Page) (hr : duplicatePage fuel h p = some r) :
    ∃ ns, r.1 = h ++ ns := by
  unfold duplicatePage at hr
  cases hc1 : copyGraph fuel h [] p.pageDict with
  | none => rw [hc1] at hr; cases hr
  | some r1 =>
    obtain ⟨h1, m1, pd⟩ := r1
    rw [hc1] at hr
    dsimp only at hr
    have s1 : ∃ ns, h1 = h ++ ns := by
      obtain ⟨ns, hns⟩ := copyGraph_heap_shape _ _ _ _ _ hc1
      exact ⟨ns, hns⟩
    cases hc2 : copyGraph fuel h1 m1 p.contents with
    | none => rw [hc2] at hr; cases hr
    | some r2 =>
      obtain ⟨h2, m2, c⟩ := r2
      rw [hc2] at hr
      dsimp only at hr
      have s2 : ∃ ns, h2 = h ++ ns := append_shape_trans s1
        (by obtain ⟨ns, hns⟩ := copyGraph_heap_shape _ _ _ _ _ hc2; exact ⟨ns, hns⟩)
      cases hc3 : copyField fuel h2 m2 p.font with
      | none => rw [hc3] at hr; cases hr
      | some r3 =>
        obtain ⟨h3, m3, f⟩ := r3
        rw [hc3] at hr
        dsimp only at hr
        have s3 : ∃ ns, h3 = h ++ ns := append_shape_trans s2
          (by obtain ⟨ns, hns⟩ := copyField_heap_shape _ _ _ _ _ hc3; exact ⟨ns, hns⟩)
        cases hc4 : copyField fuel h3 m3 p.extGState with
        | none => rw [hc4] at hr; cases hr
        | some r4 =>
          obtain ⟨h4, m4, eg⟩ := r4
          rw [hc4] at hr
          dsimp only at hr
          have s4 : ∃ ns, h4 = h ++ ns := append_shape_trans s3
            (by obtain ⟨ns, hns⟩ := copyField_heap_shape _ _ _ _ _ hc4; exact ⟨ns, hns⟩)
          cases hc5 : copyField fuel h4 m4 p.xObject with
          | none => rw [hc5] at hr; cases hr
          | some r5 =>
            obtain ⟨h5, m5, xo⟩ := r5
            rw [hc5] at hr
            dsimp only at hr
            cases hr
            exact append_shape_trans s4
              (by obtain ⟨ns, hns⟩ := copyField_heap_shape _ _ _ _ _ hc5; exact ⟨ns, hns⟩)

theorem mergeNewPageParent_spec (st1 : Appender) (npid : ObjId) (st2 : Appender)
    (h : mergeNewPageParent st1 npid = .ok st2) :
    st2.newPagesDict = st1.newPagesDict ∧
    ∀ i key, key ≠ "Parent" →
      aget (dictEntries st2.heap i) key = aget (dictEntries st1.heap i) key := by
  unfold mergeNewPageParent at h
  split at h
  · split at h
    · split at h
      · cases h
      · cases h
        exact ⟨rfl, fun i key hkey => aget_dictEntries_hsetDict_ne _ _ _ _ _ _ hkey⟩
    · cases h
      exact ⟨rfl, fun _ _ _ => rfl⟩
  · cases h
    exact ⟨rfl, fun _ _ _ => rfl⟩

theorem mergeNewPage_contents_missing (st : Appender) (sp : ObjId)
    (es : List (String × ObjId)) (hsp : hget st.heap sp = .dict es)
    (hc : aget es "Contents" = none) :
    (mergeNewPage st sp).2.2.isSome = true ∧
    (mergeNewPage st sp).1.newPagesDict = st.newPagesDict := by
  have hlt : sp < st.heap.length := hget_valid (by rw [hsp]; simp)
  unfold mergeNewPage
  dsimp only [halloc]
  cases hpr : mergeNewPageParent
      { st with heap := st.heap ++ [Node.dict (amerge [] (dictEntries st.heap sp))] }
      st.heap.length with
  | error e => exact ⟨rfl, rfl⟩
  | ok st2 =>
    dsimp only
    have hspec := mergeNewPageParent_spec _ _ _ hpr
    have hc2 : aget (dictEntries st2.heap sp) "Contents" = none := by
      rw [hspec.2 sp "Contents" (by decide)]
      show aget (dictEntries
        (st.heap ++ [Node.dict (amerge [] (dictEntries st.heap sp))]) sp) "Contents" = none
      unfold dictEntries
      rw [hget_append_lt _ _ _ hlt, hsp]
      exact hc
    rw [hc2]
    exact ⟨rfl, hspec.1⟩

/-- C9 amended: `MergePageWith(index, page)` fails — and records no merged
page, the merged-page table is untouched — when `index` has no entry in
the session's page table (initially the source document's pages, but
extended by every AddPages call), and when the not-yet-merged page at
`index` lacks a Contents entry.  The original claim's bound, the source
document's page count, is wrong once AddPages has run. -/
theorem mergePageWith_failure_cases (fuel : Nat) (st : Appender) (pageNum : Nat)
    (page : Page)
    (h : aget st.pagesDict pageNum = none ∨
      ∃ sp es, aget st.pagesDict pageNum = some sp ∧
        aget st.newPagesDict pageNum = none ∧
        hget st.heap sp = .dict es ∧ aget es "Contents" = none) :
    (mergePageWith fuel st pageNum page).2.isSome = true ∧
    (mergePageWith fuel st pageNum page).1.newPagesDict = st.newPagesDict := by
  unfold mergePageWith
  cases hdup : duplicatePage fuel st.heap page with
  | none => exact ⟨rfl, rfl⟩
  | some pr =>
    obtain ⟨h0, dpage⟩ := pr
    dsimp only
    rcases h with h1 | ⟨sp, es, h1, h2, h3, h4⟩
    · rw [h1]
      exact ⟨rfl, rfl⟩
    · rw [h1]
      dsimp only
      rw [h2]
      dsimp only
      have hsp0 : hget h0 sp = .dict es := by
        obtain ⟨ns, hns⟩ := duplicatePage_heap_shape _ _ _ _ hdup
        dsimp only at hns
        rw [hns, hget_append_lt _ _ _ (hget_valid (by rw [h3]; simp))]
        exact h3
      have hm := mergeNewPage_contents_missing { st with heap := h0 } sp es hsp0 h4
      cases hmn : mergeNewPage { st with heap := h0 } sp with
      | mk st1 rest =>
        obtain ⟨oid, err⟩ := rest
        rw [hmn] at hm
        cases err with
        | none => simp at hm
        | some e => cases oid <;> exact ⟨rfl, hm.2⟩

/-- Witness for the amended C9: merging at index 5 of the concrete session
(whose page table has the single index 0) returns an error and leaves the
merged-page table untouched. -/
theorem mergePageWith_failure_cases_w :
    (mergePageWith 99 sessionSt 5 pageB).2.isSome = true ∧
    (mergePageWith 99 sessionSt 5 pageB).1.newPagesDict = sessionSt.newPagesDict :=
  mergePageWith_failure_cases 99 sessionSt 5 pageB (Or.inl (by decide))

/-! Claim C8 (amended): the Count and kids order written by AddPages. -/

theorem hget_append_self (h : Heap) (n : Node) : hget (h ++ [n]) h.length = n := by
  unfold hget
  rw [List.getD_eq_getElem _ _ (by simp)]
  simp

theorem harrAppend_self (h : Heap) (j : ObjId) (vs es : List ObjId)
    (hj : hget h j = .array es) : hget (harrAppend h j vs) j = .array (es ++ vs) := by
  unfold harrAppend
  rw [hj, hget_set_self _ _ _ (hget_valid (by rw [hj]; simp))]

theorem dictEntries_hsetDict_self (h : Heap) (j : ObjId) (k : String) (v : ObjId)
    (es : List (String × ObjId)) (hj : hget h j = .dict es) :
    dictEntries (hsetDict h j k v) j = aset es k v := by
  unfold hsetDict
  rw [hj]
  unfold dictEntries
  rw [hget_set_self _ _ _ (hget_valid (by rw [hj]; simp))]

theorem hget_hsetDict_other (h : Heap) (j : ObjId) (k : String) (v : ObjId)
    (i : ObjId) (hij : i ≠ j) : hget (hsetDict h j k v) i = hget h i := by
  unfold hsetDict
  cases hj : hget h j with
  | dict es => exact hget_set_ne _ _ _ _ hij
  | null => rfl
  | int n => rfl
  | name s => rfl
  | ref n => rfl
  | indirect num p => rfl
  | array es => rfl
  | stream num d data => rfl
  | streams es => rfl

theorem addPagesOne_spec (fuel : Nat) (st : Appender) (p : Page) (pid kid : ObjId)
    (pes : List (String × ObjId)) (kes : List ObjId)
    (hpid : st.pagesId = some pid) (hkid : st.kidsId = some kid)
    (hpdict : hget st.heap pid = .dict pes) (hkarr : hget st.heap kid = .array kes)
    (hkeys : ∀ e ∈ st.pagesDict, e.1 < st.pagesDict.length)
    (herr : (addPagesOne fuel st p).2 = none) :
    ∃ ind pes',
      (addPagesOne fuel st p).1.pagesId = some pid ∧
      (addPagesOne fuel st p).1.kidsId = some kid ∧
      hget (addPagesOne fuel st p).1.heap pid = .dict pes' ∧
      hget (addPagesOne fuel st p).1.heap kid = .array (kes ++ [ind]) ∧
      (addPagesOne fuel st p).1.pagesDict.length = st.pagesDict.length + 1 ∧
      (∀ e ∈ (addPagesOne fuel st p).1.pagesDict,
        e.1 < (addPagesOne fuel st p).1.pagesDict.length) ∧
      aget (addPagesOne fuel st p).1.newPagesDict st.pagesDict.length = some ind ∧
      (∀ k, k ≠ st.pagesDict.length →
        aget (addPagesOne fuel st p).1.newPagesDict k = aget st.newPagesDict k) ∧
      ∃ ci, aget (dictEntries (addPagesOne fuel st p).1.heap pid) "Count" = some ci ∧
        hget (addPagesOne fuel st p).1.heap ci =
          .int (Int.ofNat (st.pagesDict.length + 1)) := by
  unfold addPagesOne at herr ⊢
  cases hcp : copyPage fuel st p with
  | none => rw [hcp] at herr; cases herr
  | some r =>
    obtain ⟨st1, ind, pd⟩ := r
    rw [hcp] at herr
    dsimp only at herr ⊢
    have hk1 : StepKeep st st1 := copyPage_keep fuel st p _ hcp
    have hk2 : StepKeep st
        { st1 with heap := hsetDict st1.heap pd "Parent" st1.ppagesId } :=
      stepKeep_trans hk1
        ⟨arrKeep_hsetDict _ _ _ _, dictKeep_hsetDict _ _ _ _, fixedFields_refl _⟩
    generalize hg3 : (renameResources fuel
      { st1 with heap := hsetDict st1.heap pd "Parent" st1.ppagesId } pd).1 = st3
      at herr ⊢
    have hk3 : StepKeep st st3 := by
      rw [← hg3]
      exact stepKeep_trans hk2 (renameResources_keep fuel _ pd)
    obtain ⟨hArr, hDict, hFsrc, hFsi, hFpd, hFnpd, hFpgid, hFkidid, hFpp, hFmb⟩ := hk3
    obtain ⟨no, hn, h5⟩ := addNewObjectsList_shape fuel
      { st3 with pagesDict := aset st3.pagesDict st3.pagesDict.length pd,
                 newPagesDict := aset st3.newPagesDict st3.pagesDict.length ind } [ind]
    rw [h5] at herr ⊢
    dsimp only at herr ⊢
    rw [hFkidid, hkid, hFpgid, hpid] at herr ⊢
    dsimp only at herr ⊢
    simp only [halloc]
    -- the kids append, the Count integer and the final Count write
    have hk3arr : hget st3.heap kid = .array kes := hArr kid kes hkarr
    have hApp : hget (harrAppend st3.heap kid [ind]) kid = .array (kes ++ [ind]) :=
      harrAppend_self _ _ _ _ hk3arr
    have hApp2 : hget ((harrAppend st3.heap kid [ind]) ++
        [Node.int (Int.ofNat (st3.pagesDict.length + 1))]) kid = .array (kes ++ [ind]) :=
      arrKeep_append _ _ kid (kes ++ [ind]) hApp
    obtain ⟨pes3, hpes3⟩ := hDict pid ⟨pes, hpdict⟩
    obtain ⟨pes4, hpes4⟩ := dictKeep_harrAppend st3.heap kid [ind] pid ⟨pes3, hpes3⟩
    obtain ⟨pes5, hpes5⟩ := dictKeep_append (harrAppend st3.heap kid [ind])
      [Node.int (Int.ofNat (st3.pagesDict.length + 1))] pid ⟨pes4, hpes4⟩
    have hci : hget ((harrAppend st3.heap kid [ind]) ++
        [Node.int (Int.ofNat (st3.pagesDict.length + 1))])
        (harrAppend st3.heap kid [ind]).length =
        Node.int (Int.ofNat (st3.pagesDict.length + 1)) :=
      hget_append_self _ _
    have hpidne : pid ≠ (harrAppend st3.heap kid [ind]).length := by
      intro he
      rw [he, hci] at hpes5
      cases hpes5
    refine ⟨ind, aset pes5 "Count" (harrAppend st3.heap kid [ind]).length,
      trivial, trivial, ?_, ?_, ?_, ?_, ?_, ?_, ?_⟩
    · -- pid still a dictionary after the Count write
      unfold hsetDict
      rw [hpes5, hget_set_self _ _ _ (hget_valid (by rw [hpes5]; simp))]
    · -- kids array extended by the new page object
      have := arrKeep_hsetDict ((harrAppend st3.heap kid [ind]) ++
        [Node.int (Int.ofNat (st3.pagesDict.length + 1))]) pid "Count"
        (harrAppend st3.heap kid [ind]).length kid (kes ++ [ind]) hApp2
      exact this
    · -- page-table size grew by one
      dsimp only
      rw [hFpd]
      exact aset_length_fresh st.pagesDict st.pagesDict.length pd
        (fun e he => Nat.ne_of_lt (hkeys e he))
    · -- key bound preserved
      dsimp only
      rw [hFpd]
      intro e he
      rw [aset_length_fresh st.pagesDict st.pagesDict.length pd
        (fun e2 he2 => Nat.ne_of_lt (hkeys e2 he2))]
      rcases aset_mem _ _ _ e he with rfl | hmem
      · omega
      · exact Nat.lt_succ_of_lt (hkeys e hmem)
    · -- the new page object is recorded under the next index
      dsimp only
      rw [hFnpd, hFpd]
      exact aget_aset_self _ _ _
    · -- other indices of the merged-page table are untouched
      intro k hk
      rw [hFnpd, hFpd]
      exact aget_aset_ne _ _ _ _ hk
    · -- the Count entry points at the freshly written integer
      refine ⟨(harrAppend st3.heap kid [ind]).length, ?_, ?_⟩
      · rw [dictEntries_hsetDict_self _ _ _ _ _ hpes5]
        exact aget_aset_self _ _ _
      · rw [hget_hsetDict_other _ _ _ _ _ (fun he => hpidne he.symm), ← hFpd]
        exact hci

theorem addPages_err_stop (fuel : Nat) : ∀ (l : List Page)
    (acc : Appender × Option String) (e : String), acc.2 = some e →
    (l.foldl (addPagesStep fuel) acc).2 = some e := by
  intro l
  induction l with
  | nil => intro acc e ha; simpa using ha
  | cons p rest ih =>
    intro acc e ha
    rw [List.foldl_cons]
    have hstep : addPagesStep fuel acc p = acc := by
      unfold addPagesStep
      rw [ha]
    rw [hstep]
    exact ih acc e ha

theorem addPages_cons_eq (fuel : Nat) (st : Appender) (p : Page) (rest : List Page) :
    addPages fuel st (p :: rest) =
      rest.foldl (addPagesStep fuel) (addPagesOne fuel st p) := rfl

theorem addPages_cons (fuel : Nat) (st : Appender) (p : Page) (rest : List Page)
    (h : (addPagesOne fuel st p).2 = none) :
    addPages fuel st (p :: rest) = addPages fuel (addPagesOne fuel st p).1 rest := by
  rw [addPages_cons_eq]
  unfold addPages
  have hpair : addPagesOne fuel st p = ((addPagesOne fuel st p).1, none) := by
    rw [← h]
  rw [hpair]

/-- Claim C8 (amended): over a session whose page-tree node and Kids array are
well formed and whose page table has in-range keys, a run of `AddPages` that
reports no model-internal failure appends exactly one kid per argument page, at
the end of the Kids array and in argument order; the tracked page table grows
by the number of argument pages, the new page objects are recorded under the
next consecutive indices while earlier entries are untouched, and the written
Count value equals the resulting number of tracked page entries — the initial
entry count plus the number of pages added (not necessarily the previously
declared Count plus the number added). -/
theorem addPages_count_and_order (fuel : Nat) (ps : List Page) (st : Appender)
    (pid kid : ObjId) (kes : List ObjId)
    (hpid : st.pagesId = some pid) (hkid : st.kidsId = some kid)
    (hpdict : ∃ pes, hget st.heap pid = .dict pes)
    (hkarr : hget st.heap kid = .array kes)
    (hkeys : ∀ e ∈ st.pagesDict, e.1 < st.pagesDict.length)
    (herr : (addPages fuel st ps).2 = none) :
    (addPages fuel st ps).1.pagesDict.length = st.pagesDict.length + ps.length ∧
    (∀ k, k < st.pagesDict.length →
      aget (addPages fuel st ps).1.newPagesDict k = aget st.newPagesDict k) ∧
    ∃ newInds : List ObjId, newInds.length = ps.length ∧
      hget (addPages fuel st ps).1.heap kid = .array (kes ++ newInds) ∧
      (∀ j, j < ps.length →
        aget (addPages fuel st ps).1.newPagesDict (st.pagesDict.length + j) =
          newInds.get? j) ∧
      (ps ≠ [] →
        ∃ ci, aget (dictEntries (addPages fuel st ps).1.heap pid) "Count" = some ci ∧
          hget (addPages fuel st ps).1.heap ci =
            .int (Int.ofNat (st.pagesDict.length + ps.length))) := by
  induction ps generalizing st kes with
  | nil =>
    refine ⟨rfl, fun k _ => rfl, [], rfl, by simpa using hkarr, ?_, ?_⟩
    · intro j hj
      exact absurd hj (by simp)
    · intro hne
      exact absurd rfl hne
  | cons p rest ih =>
    obtain ⟨pes, hpes⟩ := hpdict
    have h1err : (addPagesOne fuel st p).2 = none := by
      cases hso : (addPagesOne fuel st p).2 with
      | none => rfl
      | some e =>
        rw [addPages_cons_eq] at herr
        rw [addPages_err_stop fuel rest _ e hso] at herr
        cases herr
    obtain ⟨ind, pes', hA1, hA2, hA3, hA4, hA5, hA6, hA7, hA8, hA9⟩ :=
      addPagesOne_spec fuel st p pid kid pes kes hpid hkid hpes hkarr hkeys h1err
    have hrw : addPages fuel st (p :: rest) =
        addPages fuel (addPagesOne fuel st p).1 rest :=
      addPages_cons fuel st p rest h1err
    rw [hrw] at herr ⊢
    obtain ⟨ihLen, ihFrame, newInds', hL', hKids', hIdx', hCnt'⟩ :=
      ih (addPagesOne fuel st p).1 (kes ++ [ind]) hA1 hA2 ⟨pes', hA3⟩ hA4 hA6 herr
    refine ⟨?_, ?_, ind :: newInds', by simp [hL'], ?_, ?_, ?_⟩
    · rw [ihLen, hA5]
      simp only [List.length_cons]
      omega
    · intro k hk
      rw [ihFrame k (by rw [hA5]; omega), hA8 k (by omega)]
    · rw [hKids']
      simp
    · intro j hj
      cases j with
      | zero =>
        have hfr := ihFrame st.pagesDict.length (by rw [hA5]; omega)
        simpa using hfr.trans hA7
      | succ j' =>
        have hj' : j' < rest.length := by
          simp only [List.length_cons] at hj
          omega
        have h := hIdx' j' hj'
        rw [hA5] at h
        have heq : st.pagesDict.length + 1 + j' = st.pagesDict.length + (j' + 1) := by
          omega
        rw [heq] at h
        exact h
    · intro hne
      cases rest with
      | nil => exact hA9
      | cons q qs =>
        obtain ⟨ci, hc1, hc2⟩ := hCnt' (by simp)
        refine ⟨ci, hc1, ?_⟩
        rw [hA5] at hc2
        have heq : st.pagesDict.length + 1 + (q :: qs).length =
            st.pagesDict.length + (p :: q :: qs).length := by
          simp only [List.length_cons]
          omega
        rw [heq] at hc2
        exact hc2

/-- Witness for the amended C8: adding one page to the concrete session (page
table of size one, Kids array `[9]`) grows the page table to two entries,
appends one new kid, records it under index 1, and writes Count 2. -/
theorem addPages_count_and_order_w :
    (addPages 99 sessionSt [pageA]).1.pagesDict.length =
      sessionSt.pagesDict.length + 1 ∧
    ∃ newInds : List ObjId, newInds.length = 1 ∧
      hget (addPages 99 sessionSt [pageA]).1.heap 7 = .array ([9] ++ newInds) ∧
      ∃ ci, aget (dictEntries (addPages 99 sessionSt [pageA]).1.heap 6) "Count" =
          some ci ∧
        hget (addPages 99 sessionSt [pageA]).1.heap ci =
          .int (Int.ofNat (sessionSt.pagesDict.length + 1)) := by
  obtain ⟨h1, _h2, newInds, hL, hK, _hI, hC⟩ :=
    addPages_count_and_order 99 [pageA] sessionSt 6 7 [9] (by decide) (by decide)
      ⟨[("Kids", 7), ("Count", 8)], by decide⟩ (by decide) (by decide) (by decide)
  exact ⟨h1, newInds, hL, hK, hC (by simp)⟩

end UniPdf
